import Mathlib

/-!
Verification of the `mlargparser` command-schema compiler and dispatcher
(`src/mlargparser.py`): a shallow embedding of the data model and of the
operations that build command schemas, assign option spellings, construct the
command registry, and post-process parse results, together with theorems about
the behaviour the specification describes.

Python strings are modelled by Lean `String`, with the handful of Python
string primitives the source uses (`startswith`, slicing, single-character
`replace`, substring membership) defined over the character list so that the
proofs can reason about them directly.
-/

namespace MLArgparser

/-! ### Python string primitives -/

/-- Python `s.startswith(pre)`. -/
def pyStartsWith (s pre : String) : Bool :=
  pre.data.isPrefixOf s.data

/-- Python slicing `s[n:]` (character based). -/
def pyDrop (s : String) (n : Nat) : String :=
  ⟨s.data.drop n⟩

/-- Python slicing `s[:n]` (character based). -/
def pyTake (s : String) (n : Nat) : String :=
  ⟨s.data.take n⟩

/-- Python `s.replace(a, b)` for single-character `a` and `b`, the only form
the source uses. -/
def pyReplaceChar (s : String) (a b : Char) : String :=
  ⟨s.data.map (fun c => if c = a then b else c)⟩

/-- Python substring membership `needle in hay`. -/
def pyContains (hay needle : String) : Bool :=
  decide (needle.data <:+: hay.data)

/-! ### Python values and parameter signatures -/

/-- The Python runtime values that flow through argument parsing: `None`,
booleans, integers, strings and (nested) lists. -/
inductive PyVal where
  | none
  | bool (b : Bool)
  | int (n : Int)
  | str (s : String)
  | list (xs : List PyVal)

mutual

/-- Decidable equality of Python values. -/
def PyVal.decEq : (a b : PyVal) → Decidable (a = b)
  | .none, .none => isTrue rfl
  | .bool a, .bool b =>
      if h : a = b then isTrue (by rw [h])
      else isFalse (fun hh => by cases hh; exact h rfl)
  | .int a, .int b =>
      if h : a = b then isTrue (by rw [h])
      else isFalse (fun hh => by cases hh; exact h rfl)
  | .str a, .str b =>
      if h : a = b then isTrue (by rw [h])
      else isFalse (fun hh => by cases hh; exact h rfl)
  | .list xs, .list ys =>
      match PyVal.decEqList xs ys with
      | isTrue h => isTrue (by rw [h])
      | isFalse h => isFalse (fun hh => by cases hh; exact h rfl)
  | .none, .bool _ | .none, .int _ | .none, .str _ | .none, .list _ =>
      isFalse (fun h => by cases h)
  | .bool _, .none | .bool _, .int _ | .bool _, .str _ | .bool _, .list _ =>
      isFalse (fun h => by cases h)
  | .int _, .none | .int _, .bool _ | .int _, .str _ | .int _, .list _ =>
      isFalse (fun h => by cases h)
  | .str _, .none | .str _, .bool _ | .str _, .int _ | .str _, .list _ =>
      isFalse (fun h => by cases h)
  | .list _, .none | .list _, .bool _ | .list _, .int _ | .list _, .str _ =>
      isFalse (fun h => by cases h)

/-- Decidable equality of lists of Python values. -/
def PyVal.decEqList : (xs ys : List PyVal) → Decidable (xs = ys)
  | [], [] => isTrue rfl
  | [], _ :: _ => isFalse (fun h => by cases h)
  | _ :: _, [] => isFalse (fun h => by cases h)
  | x :: xs, y :: ys =>
      match PyVal.decEq x y, PyVal.decEqList xs ys with
      | isTrue h1, isTrue h2 => isTrue (by rw [h1, h2])
      | isFalse h1, _ => isFalse (fun hh => by cases hh; exact h1 rfl)
      | isTrue _, isFalse h2 => isFalse (fun hh => by cases hh; exact h2 rfl)

end

instance : DecidableEq PyVal := PyVal.decEq

/-- Python truthiness (`if not value`). -/
def pyTruthy : PyVal → Bool
  | .none => false
  | .bool b => b
  | .int n => n != 0
  | .str s => !s.data.isEmpty
  | .list xs => !xs.isEmpty

/-- `type(value).__name__`. -/
def pyTypeName : PyVal → String
  | .none => "NoneType"
  | .bool _ => "bool"
  | .int _ => "int"
  | .str _ => "str"
  | .list _ => "list"

mutual

/-- Python `str(value)` for values that appear as argument defaults (list
elements are rendered by `str` as well; the `repr` quoting of nested strings
is immaterial to every claim). -/
def pyStr : PyVal → String
  | .none => "None"
  | .bool b => if b then "True" else "False"
  | .int n => toString n
  | .str s => s
  | .list xs => "[" ++ pyStrItems xs ++ "]"

/-- Comma-separated rendering of a list's items. -/
def pyStrItems : List PyVal → String
  | [] => ""
  | [x] => pyStr x
  | x :: y :: xs => pyStr x ++ ", " ++ pyStrItems (y :: xs)

end

/-- A parameter's default slot: either `inspect.Parameter.empty` (no default
declared) or an actual Python value. -/
inductive Default where
  | empty
  | val (v : PyVal)
deriving DecidableEq

/-- The type annotations a command parameter can carry, as the source
distinguishes them: missing, the literal `None`, a textual forward reference,
the builtin scalar types, the bare collection types (the `AST_TYPES` list),
`Optional[T]` (i.e. `Union[T, None]`), the one-argument collection generics
(`list[T]`/`List[T]` and friends, which the source treats identically), and
other annotation objects of which only callability matters. -/
inductive Ann where
  | empty
  | noneAnn
  | strAnn (s : String)
  | bool
  | int
  | str
  | float
  | list0
  | set0
  | tuple0
  | dict0
  | optional (t : Ann)
  | listOf (t : Ann)
  | setOf (t : Ann)
  | tupleOf (t : Ann)
  | custom (name : String) (isCallableAnn : Bool)
deriving DecidableEq

/-- The `__origin__` markers `typing.get_origin` can return for our
annotations. -/
inductive Origin where
  | union
  | list
  | set
  | tuple
deriving DecidableEq

/-- `typing.get_origin`. -/
def getOrigin : Ann → Option Origin
  | .optional _ => some .union
  | .listOf _ => some .list
  | .setOf _ => some .set
  | .tupleOf _ => some .tuple
  | _ => Option.none

/-- `typing.get_args` (`Optional[T]` reports `(T, NoneType)`). -/
def getArgs : Ann → List Ann
  | .optional t => [t, .noneAnn]
  | .listOf t => [t]
  | .setOf t => [t]
  | .tupleOf t => [t]
  | _ => []

/-- Whether Python's `callable` holds of the annotation object.  Plain types
and the builtin generic aliases are callable; the `Union` special form is not,
but it carries `__origin__`, which is what the validity check looks at next. -/
def annCallable : Ann → Bool
  | .bool | .int | .str | .float => true
  | .list0 | .set0 | .tuple0 | .dict0 => true
  | .listOf _ | .setOf _ | .tupleOf _ => true
  | .custom _ c => c
  | _ => false

/-- Text of an annotation for error messages (Python's `f"{annotation}"`). -/
def annText : Ann → String
  | .empty => "<empty>"
  | .noneAnn => "None"
  | .strAnn s => s
  | .bool => "<class 'bool'>"
  | .int => "<class 'int'>"
  | .str => "<class 'str'>"
  | .float => "<class 'float'>"
  | .list0 => "<class 'list'>"
  | .set0 => "<class 'set'>"
  | .tuple0 => "<class 'tuple'>"
  | .dict0 => "<class 'dict'>"
  | .optional t => "typing.Optional[" ++ annText t ++ "]"
  | .listOf t => "list[" ++ annText t ++ "]"
  | .setOf t => "set[" ++ annText t ++ "]"
  | .tupleOf t => "tuple[" ++ annText t ++ "]"
  | .custom n _ => n

/-- string to use for undocumented commands/arguments. -/
def STR_UNDOCUMENTED : String := "FIXME: UNDOCUMENTED"

/-- One command parameter as `inspect.signature` reports it: name, annotation
and default. -/
structure Param where
  name : String
  ann : Ann
  default : Default
deriving DecidableEq

/-! ### TypeValidator -/

namespace TypeValidator

/-- `TypeValidator.is_bool_type`: the annotation is `bool`, or a generic whose
argument list has exactly one non-`None` member which is `bool` (this is how
`Optional[bool]` is recognised). -/
def is_bool_type ( annotation : Ann) : Bool :=
  if annotation == .bool then true
  else
    match getOrigin annotation with
    | some _ =>
        match (getArgs annotation).filter (fun a => a != .noneAnn) with
        | [a] => a == .bool
        | _ => false
    | Option.none => false

/-- `TypeValidator.is_valid_annotation`: `(is_valid, error_message)`. -/
def is_valid_annotation : Ann → Bool × Option String
  | .empty => (true, Option.none)
  | .noneAnn => (true, Option.none)
  | .strAnn s =>
      (false, some ("String annotation '" ++ s ++ "' cannot be resolved. Use actual type."))
  | a =>
      if annCallable a || (getOrigin a).isSome then (true, Option.none)
      else (false, some ("Annotation " ++ annText a ++ " is neither a type nor callable"))

/-- `TypeValidator.normalize_annotation`: a missing or `None` annotation
defaults to `str`. -/
def normalize_annotation ( annotation : Ann) : Ann :=
  if annotation == .empty || annotation == .noneAnn then .str else annotation

end TypeValidator

/-! ### Value parsers and type resolution (`CmdArg` private helpers) -/

/-- The value-conversion callables a `CmdArg` can end up holding. -/
inductive PParser where
  | strP
  | intP
  | boolP
  | floatP
  | astLiteralEval
  | typeP (name : String)
deriving DecidableEq

/-- list of types that can be safely converted from string by the
`ast.literal_eval` method (`AST_TYPES`). -/
def AST_TYPES : List Ann := [.list0, .tuple0, .dict0, .set0]

/-- The conversion callable a plain (non-generic) annotation denotes. -/
def scalarParserOf : Ann → PParser
  | .bool => .boolP
  | .int => .intP
  | .str => .strP
  | .float => .floatP
  | .custom n _ => .typeP n
  | a => .typeP (annText a)

/-- `CmdArg.__resolve_string_annotation`: `getattr(builtins, annotation)`.
We model the builtin type names an annotation can meaningfully name; any
other name raises `ValueError` exactly as the source does.  (Python's
`builtins` module also holds non-type callables such as `len`; no annotation
in this repository, its tests or the claims names one.) -/
def resolve_string_annotation ( annotation : String) : Except String Ann :=
  if annotation == "bool" then .ok .bool
  else if annotation == "int" then .ok .int
  else if annotation == "str" then .ok .str
  else if annotation == "float" then .ok .float
  else if annotation == "list" then .ok .list0
  else if annotation == "set" then .ok .set0
  else if annotation == "tuple" then .ok .tuple0
  else if annotation == "dict" then .ok .dict0
  else .error ("Cannot resolve string annotation: " ++ annotation)

/-- `CmdArg.__normalize_type_annotation`, with `__normalize_typing_with_inspect`
inlined (the repository always has the typing inspection utilities).  A string
annotation is resolved against builtins and then falls through the remaining
branches; a resolved builtin is a plain type, so only the `AST_TYPES` and
callable cases can apply to it.  For the one-argument generics the source
recurses on the first (non-`None`) type argument. -/
def normalize_type_annotation : Ann → Except String PParser
  | .empty => .ok .strP
  | .noneAnn => .ok .strP
  | .strAnn s =>
      match resolve_string_annotation s with
      | .error e => .error e
      | .ok t =>
          if AST_TYPES.contains t then .ok .astLiteralEval
          else .ok (scalarParserOf t)
  | .optional t => normalize_type_annotation t
  | .listOf t => normalize_type_annotation t
  | .setOf t => normalize_type_annotation t
  | .tupleOf t => normalize_type_annotation t
  | a =>
      if AST_TYPES.contains a then .ok .astLiteralEval
      else if annCallable a then .ok (scalarParserOf a)
      else .error ("Type annotation " ++ annText a ++ " is not callable")

/-- `CmdArg.__get_parser_for_type`: `AST_TYPES` go to the literal evaluator,
`Optional`/generic wrappers recurse on the first non-`None` argument, and
everything else (string annotations included) is delegated to
`normalize_type_annotation`. -/
def get_parser_for_type : Ann → Except String PParser
  | .empty => .ok .strP
  | .optional t => get_parser_for_type t
  | .listOf t => get_parser_for_type t
  | .setOf t => get_parser_for_type t
  | .tupleOf t => get_parser_for_type t
  | a =>
      if AST_TYPES.contains a then .ok .astLiteralEval
      else normalize_type_annotation a

/-- The origins `CmdArg.__is_collection_type` can report. -/
inductive CollOrigin where
  | list
  | set
  | tuple
deriving DecidableEq

/-- `CmdArg.__is_collection_type`: unwraps `Optional`, then recognises the
list/set/tuple generics, reporting the origin and element type. -/
def is_collection_type : Ann → Option (CollOrigin × Ann)
  | .optional t => is_collection_type t
  | .listOf t => some (.list, t)
  | .setOf t => some (.set, t)
  | .tupleOf t => some (.tuple, t)
  | _ => Option.none

/-! ### CmdArg -/

/-- The argparse actions the source assigns. -/
inductive ActionKind where
  | store
  | storeTrue
  | storeFalse
  | append
deriving DecidableEq

/-- One parameter's complete CLI binding, as `CmdArg.__init__` builds it. -/
structure CmdArg where
  name : String
  type : Ann
  desc : String
  parser : Option PParser
  action : ActionKind
  nargs : Option String
  required : Bool
deriving DecidableEq

/-- `CmdArg.__setup_collection_type`. -/
def setupCollection (c : CmdArg) (signature : Param) (elementType : Ann) :
    Except String CmdArg :=
  match get_parser_for_type elementType with
  | .error e =>
      .error ("Invalid type annotation for parameter '" ++ c.name ++ "': " ++ e)
  | .ok p =>
      .ok { c with parser := some p, action := .append, nargs := some "+",
                   required := signature.default == .empty }

/-- `CmdArg.__setup_boolean_type`. -/
def setupBoolean (c : CmdArg) (signature : Param) : CmdArg :=
  let c := { c with parser := Option.none, required := false }
  if pyStartsWith c.name "no_" then
    let c := { c with action := ActionKind.storeFalse }
    if c.desc != STR_UNDOCUMENTED && signature.default == .val (.bool true) then
      let baseName := pyDrop c.name 3
      { c with desc := "Explicitly disable " ++ pyReplaceChar baseName '_' ' ' }
    else c
  else
    let c := { c with action := ActionKind.storeTrue }
    if signature.default == .val (.bool true) then
      { c with desc := c.desc ++ " [enabled by default]" }
    else if signature.default == .val (.bool false) then
      { c with desc := c.desc ++ " [disabled by default]" }
    else c

/-- `CmdArg.__setup_regular_type`. -/
def setupRegular (c : CmdArg) (signature : Param) : Except String CmdArg :=
  match get_parser_for_type c.type with
  | .error e =>
      .error ("Invalid type annotation for parameter '" ++ c.name ++ "': " ++ e)
  | .ok p =>
      let c := { c with parser := some p, action := ActionKind.store,
                        required := signature.default == .empty }
      match signature.default with
      | .empty => .ok c
      | .val v => .ok { c with desc := c.desc ++ " [default: \"" ++ pyStr v ++ "\"]" }

/-- `CmdArg.__init__`: validate the annotation, then dispatch on collection /
boolean / regular. -/
def cmdArgInit (signature : Param) (desc : String) : Except String CmdArg :=
  let c : CmdArg :=
    { name := signature.name, type := signature.ann, desc := desc,
      parser := Option.none, action := ActionKind.store, nargs := Option.none,
      required := false }
  match TypeValidator.is_valid_annotation signature.ann with
  | (false, msg) =>
      .error ("Invalid type annotation for parameter '" ++ signature.name ++ "': "
              ++ msg.getD "")
  | (true, _) =>
      let normalized := TypeValidator.normalize_annotation signature.ann
      match is_collection_type signature.ann with
      | some (_, elementType) => setupCollection c signature elementType
      | Option.none =>
          if TypeValidator.is_bool_type normalized then .ok (setupBoolean c signature)
          else setupRegular c signature

/-- The keyword set `CmdArg.get_argparse_kwargs` hands to `add_argument`. -/
structure ArgKwargs where
  help : String
  required : Bool
  dest : String
  action : ActionKind
  typeSlot : Option PParser
  nargsSlot : Option String
deriving DecidableEq

/-- `CmdArg.get_argparse_kwargs`: the `type` slot only for store/append, the
`nargs` slot only for append, and the destination of a `no_`-prefixed boolean
flag is its base name. -/
def CmdArg.get_argparse_kwargs (c : CmdArg) : ArgKwargs :=
  let typeSlot :=
    if c.action == ActionKind.store || c.action == ActionKind.append then c.parser
    else Option.none
  let nargsSlot := if c.action == ActionKind.append then c.nargs else Option.none
  let dest :=
    if TypeValidator.is_bool_type (TypeValidator.normalize_annotation c.type)
        && pyStartsWith c.name "no_" then
      pyDrop c.name 3
    else c.name
  { help := c.desc, required := c.required, dest := dest, action := c.action,
    typeSlot := typeSlot, nargsSlot := nargsSlot }

/-! ### Tree-node configuration and output channels -/

/-- The class-level knobs of an `MLArgParser` tree node, together with its
(merged) `arg_desc` mapping. -/
structure NodeCfg where
  auto_disable_flags : Bool := true
  case_sensitive_commands : Bool := false
  strict_validation : Bool := true
  strict_types : Bool := true
  arg_desc : Option (List (String × String)) := Option.none
deriving DecidableEq

/-- The two output channels the source prints to. -/
inductive Chan where
  | stdout
  | stderr
deriving DecidableEq

/-- What a run printed, in order. -/
abbrev Output := List (Chan × String)

/-- `self.arg_desc.get(name, STR_UNDOCUMENTED) if self.arg_desc else
STR_UNDOCUMENTED` — also the equivalent membership test form used in
`__get_arg_properties`. -/
def descFor (argDesc : Option (List (String × String))) (name : String) : String :=
  match argDesc with
  | Option.none => STR_UNDOCUMENTED
  | some m => (m.lookup name).getD STR_UNDOCUMENTED

/-! ### Building the command schema (`__get_arg_properties`, option naming,
`__get_cmd_parser`) -/

/-- One parameter's contribution to the `MLArgParser.__get_arg_properties`
generator: the `CmdArg` for the parameter itself (paired with its declared
default) and, when automatic disable flags are on and the parameter is a
boolean whose default `is True`, the synthetic `no_<name>` counterpart
(paired with Python `None`) — unless a parameter literally named `no_<name>`
exists (the source warns on stderr and skips) or the name already carries the
`no_` marker.  Errors are the `ValueError`s `CmdArg.__init__` raises. -/
def argPropsFor (cfg : NodeCfg) (paramNames : List String) (p : Param) :
    Except String (List (CmdArg × Default)) := do
  let desc := descFor cfg.arg_desc p.name
  let c ← cmdArgInit p desc
  let normalized := TypeValidator.normalize_annotation p.ann
  let isBoolWithTrueDefault :=
    cfg.auto_disable_flags && TypeValidator.is_bool_type normalized
      && p.default == Default.val (.bool true)
  if isBoolWithTrueDefault then
    let noName := "no_" ++ p.name
    if paramNames.contains noName then
      pure [(c, p.default)]
    else if pyStartsWith p.name "no_" then
      pure [(c, p.default)]
    else do
      let c2 ← cmdArgInit { p with name := noName } desc
      pure [(c, p.default), (c2, Default.val .none)]
  else
    pure [(c, p.default)]

/-- `MLArgParser.__get_arg_properties` over a whole signature
(`param_names` is the set of all declared parameter names). -/
def get_arg_properties (cfg : NodeCfg) (params : List Param) :
    Except String (List (CmdArg × Default)) :=
  go (params.map Param.name) params
where
  /-- The generator, parameter by parameter. -/
  go (names : List String) : List Param → Except String (List (CmdArg × Default))
  | [] => .ok []
  | p :: rest => do
      let l ← argPropsFor cfg names p
      let l' ← go names rest
      pure (l ++ l')

/-- `MLArgParser.__get_options_for_arg`: the long option always, a short
option exactly when its letter is still free; the per-node `short_options`
tracker is threaded explicitly (it is `None`, i.e. empty, on a freshly
constructed node, and the source never resets it). -/
def get_options_for_arg (shortOptions : List String) (arg : String) :
    List String × List String :=
  let longOption := "--" ++ pyReplaceChar arg '_' '-'
  let shortOption := "-" ++ pyTake arg 1
  if !shortOptions.contains shortOption then
    ([longOption, shortOption], shortOptions ++ [shortOption])
  else
    ([longOption], shortOptions)

/-- Python dict assignment `d[k] = v` over an insertion-ordered association
list: replace in place when the key is present, append otherwise. -/
def dictSet {α : Type} (d : List (String × α)) (k : String) (v : α) :
    List (String × α) :=
  match d with
  | [] => [(k, v)]
  | kv :: rest => if kv.1 == k then (k, v) :: rest else kv :: dictSet rest k v

/-- One declared flag of a built schema: its option spellings, the keyword
set, and whether it was placed in the "required arguments" group. -/
structure SchemaAction where
  options : List String
  kwargs : ArgKwargs
  inRequiredGroup : Bool
deriving DecidableEq

/-- A built command schema: the argparse parser the source assembles in
`__get_cmd_parser` — its description and usage text, its declared flags, and
the defaults installed by `set_defaults`. -/
structure CmdParser where
  description : String
  usage : String
  actions : List SchemaAction
  defaults : List (String × PyVal)
deriving DecidableEq

/-- The per-flag step of `__get_cmd_parser`'s loop: name the options, build
the kwargs, add the argument to the parser, record the default when it is
neither `None` nor `inspect.Parameter.empty`. -/
def addArgStep (st : CmdParser × List String) (cd : CmdArg × Default) :
    CmdParser × List String :=
  let (parser, shorts) := st
  let (options, shorts') := get_options_for_arg shorts cd.1.name
  let action : SchemaAction :=
    { options := options, kwargs := cd.1.get_argparse_kwargs,
      inRequiredGroup := cd.1.required }
  let defaults' :=
    match cd.2 with
    | .empty => parser.defaults
    | .val .none => parser.defaults
    | .val v => dictSet parser.defaults cd.1.name v
  ({ parser with actions := parser.actions ++ [action], defaults := defaults' },
   shorts')

/-- `MLArgParser.__get_cmd_parser`: build the command schema for a signature.
Returns the parser together with the node's `short_options` tracker after the
build. -/
def getCmdParser (cfg : NodeCfg) (description usage : String)
    (shortOptions : List String) (params : List Param) :
    Except String (CmdParser × List String) := do
  let props ← get_arg_properties cfg params
  let init : CmdParser :=
    { description := description, usage := usage, actions := [], defaults := [] }
  pure (props.foldl addArgStep (init, shortOptions))

/-! ### Command registry (`__init_commands` and its validators) -/

/-- Python `str.lower`, character by character. -/
def pyToLower (s : String) : String :=
  String.mk (s.data.map Char.toLower)

/-- `MLArgParser.__normalize_command_name`. -/
def normalize_command_name (cfg : NodeCfg) (name : String) : String :=
  let normalized := pyReplaceChar name '_' '-'
  if cfg.case_sensitive_commands then normalized else pyToLower normalized

/-- `MLArgParser.__validate_boolean_params`: reject double-negative boolean
names and positive/negative boolean pairs.  The result is the `ValueError`
message when one is raised. -/
def validate_boolean_params (params : List Param) : Except String Unit :=
  go (params.map Param.name) params
where
  /-- The loop over `param_names`. -/
  go (paramNames : List String) : List Param → Except String Unit
  | [] => .ok ()
  | p :: rest =>
      if TypeValidator.is_bool_type (TypeValidator.normalize_annotation p.ann) then
        if pyStartsWith p.name "no_no_" then
          .error ("Parameter '" ++ p.name ++ "' uses double negative 'no_no_' "
                  ++ "prefix. Consider renaming to avoid confusion.")
        else if pyStartsWith p.name "no_"
            && paramNames.contains (pyDrop p.name 3) then
          .error ("Both '" ++ pyDrop p.name 3 ++ "' and '" ++ p.name
                  ++ "' parameters exist. This creates ambiguous flag behavior. "
                  ++ "Use only one.")
        else go paramNames rest
      else go paramNames rest

/-- `MLArgParser.__validate_command_signature`.  A `ValueError` out of
`__validate_boolean_params` is caught by the enclosing `except Exception`
and recorded as a failed-inspection error, and the two per-parameter loops
never run; otherwise both loops collect their errors. -/
def validate_command_signature (cfg : NodeCfg) (attrName : String)
    (params : List Param) : List String :=
  match validate_boolean_params params with
  | .error e =>
      ["Command '" ++ attrName ++ "': Failed to inspect signature: " ++ e]
  | .ok _ =>
      let annErrors := params.filterMap (fun p =>
        match TypeValidator.is_valid_annotation p.ann with
        | (false, msg) =>
            some ("Command '" ++ attrName ++ "', parameter '" ++ p.name ++ "': "
                  ++ msg.getD "")
        | (true, _) => Option.none)
      let cmdArgErrors := params.filterMap (fun p =>
        match cmdArgInit p (descFor cfg.arg_desc p.name) with
        | .error e =>
            some ("Command '" ++ attrName ++ "', parameter '" ++ p.name ++ "': " ++ e)
        | .ok _ => Option.none)
      annErrors ++ cmdArgErrors

/-- What a tree-node attribute can be, as far as `__init_commands` cares:
a plain method (a leaf command with a signature), a nested `MLArgParser`
subclass (a subtree), or a non-callable attribute. -/
inductive Attr where
  | method (params : List Param)
  | subtree
  | plain
deriving DecidableEq

/-- `callable(attr)`. -/
def Attr.isCallableAttr : Attr → Bool
  | .plain => false
  | _ => true

/-- The loop state of `__init_commands`: the `commands` map, the collected
type-validation errors, and the recorded collisions. -/
structure InitState where
  commands : List (String × String × Attr)
  errors : List String
  collisions : List (String × List String)
deriving DecidableEq

/-- `MLArgParser.__record_command_collision`: on first collision for a key the
list opens with the name currently stored in the map, then the new name is
appended. -/
def recordCollision (st : InitState) (cmdKey attrName : String) :
    List (String × List String) :=
  match st.collisions.lookup cmdKey with
  | Option.none =>
      let firstName := ((st.commands.lookup cmdKey).map Prod.fst).getD ""
      st.collisions ++ [(cmdKey, [firstName, attrName])]
  | some _ =>
      st.collisions.map (fun kv =>
        if kv.1 == cmdKey then (kv.1, kv.2 ++ [attrName]) else kv)

/-- One member's step of the `__init_commands` loop. -/
def initStep (cfg : NodeCfg) (st : InitState) (member : String × Attr) :
    InitState :=
  let (attrName, attr) := member
  if !(attr.isCallableAttr && !pyStartsWith attrName "_") then st
  else
    let commandErrors :=
      match attr with
      | .method params => validate_command_signature cfg attrName params
      | _ => []
    if !commandErrors.isEmpty then { st with errors := st.errors ++ commandErrors }
    else
      let cmdKey := normalize_command_name cfg attrName
      let collisions' :=
        if (st.commands.lookup cmdKey).isSome then recordCollision st cmdKey attrName
        else st.collisions
      { st with commands := dictSet st.commands cmdKey (attrName, attr),
                collisions := collisions' }

/-- The report text `MLArgParser.__report_collisions` builds. -/
def collisionReport (collisions : List (String × List String)) : String :=
  let lines := "Command name collisions detected:" ::
    (collisions.map (fun kv =>
      ["  Command '" ++ kv.1 ++ "' maps to multiple methods: "
         ++ String.intercalate ", " kv.2,
       "    Only '" ++ (kv.2.getLast?.getD "") ++ "' will be accessible."])).flatten
  String.intercalate "\n" lines

/-- The report text `MLArgParser.__report_validation_errors` builds. -/
def validationReport (cfg : NodeCfg) (errors : List String) : String :=
  if cfg.strict_types then
    String.intercalate "\n  - " ("Type validation errors:" :: errors)
  else
    String.intercalate "\n  - " ("Warning: Type validation errors:" :: errors)

/-- `MLArgParser.__init_commands` over the node's member list, in the order
`dir(self)` enumerates it (sorted attribute names).  On success: the
`commands` registry and what was printed to stderr.  A raised `ValueError`
(collision report under strict validation, type-error report under strict
typing — each printed before the raise) is the `.error` case. -/
def init_commands (cfg : NodeCfg) (members : List (String × Attr)) :
    Except String (List (String × String × Attr) × Output) :=
  let st := members.foldl (initStep cfg) ⟨[], [], []⟩
  let collOut : Output :=
    if st.collisions.isEmpty then [] else [(.stderr, collisionReport st.collisions)]
  if !st.collisions.isEmpty && cfg.strict_validation then
    .error (collisionReport st.collisions)
  else
    let valOut : Output :=
      if st.errors.isEmpty then []
      else [(.stderr, validationReport cfg st.errors)]
    if !st.errors.isEmpty && cfg.strict_types then
      .error (validationReport cfg st.errors)
    else
      .ok (st.commands, collOut ++ valOut)

/-! ### Dispatcher pieces: command resolution and post-parse processing -/

/-- `MLArgParser.__generate_command_suggestions`. -/
def generate_command_suggestions (parsedCommand : String)
    (availableCommands : List String) : List String :=
  let normalizedInput := pyReplaceChar (pyReplaceChar parsedCommand '-' '_') '_' '-'
  availableCommands.filter (fun cmd =>
    let normalizedCmd := pyReplaceChar (pyReplaceChar cmd '-' '_') '_' '-'
    pyContains cmd parsedCommand || pyContains parsedCommand cmd
      || normalizedInput == normalizedCmd
      || pyReplaceChar parsedCommand '-' '_' == pyReplaceChar cmd '-' '_'
      || pyReplaceChar parsedCommand '_' '-' == pyReplaceChar cmd '_' '-')

/-- `MLArgParser.__get_cmd_callable`: resolve the parsed command token in the
registry, or — for a token that carries the internal-member marker or has no
registry entry — print the unrecognized-command message (suggestions
included) and the node's help, both with plain `print` on standard output,
and exit with status 1 (modelled as the `.error` case carrying the printed
output and the exit code). -/
def get_cmd_callable (commands : List (String × String × Attr))
    (helpText : String) (parsedCommand : String) :
    Except (Output × Nat) Attr :=
  match commands.lookup parsedCommand with
  | some entry =>
      if pyStartsWith parsedCommand "_" then
        .error (unrecognizedOutput commands helpText parsedCommand, 1)
      else .ok entry.2
  | Option.none => .error (unrecognizedOutput commands helpText parsedCommand, 1)
where
  /-- The two lines printed on the unrecognized-command path. -/
  unrecognizedOutput (commands : List (String × String × Attr))
      (helpText : String) (parsedCommand : String) : Output :=
    let availableCommands := commands.map Prod.fst
    let suggestions := generate_command_suggestions parsedCommand availableCommands
    let errorMsg := "Unrecognized command: " ++ parsedCommand
    let errorMsg :=
      if suggestions.isEmpty then errorMsg
      else errorMsg ++ "\n\nDid you mean one of these?\n  "
             ++ String.intercalate "\n  " suggestions
    [(.stdout, errorMsg), (.stdout, helpText)]

/-- `MLArgParser.__is_append_action` over a schema flag.  Live argparse
`Action` objects carry no `action` attribute, so the
`getattr(x, 'action', None) == 'append'` disjunct is always false and the
class-name test (`...AppendAction`) decides; it holds exactly of the flags
declared with the append action. -/
def is_append_action (a : SchemaAction) (key : String) : Bool :=
  a.kwargs.dest == key && a.kwargs.nargsSlot == some "+"
    && a.kwargs.action == ActionKind.append

/-- One level of the flattening `__flatten_list_argument` applies to each
item. -/
def flattenOne : PyVal → List PyVal
  | .list xs => xs
  | v => [v]

/-- `MLArgParser.__flatten_list_argument` for one key of the parsed bindings:
returns the updated bindings and what was printed to stderr.  No append
action, a missing/falsy value, and the empty-after-flattening case never
fail; the last of these warns. -/
def flatten_list_argument (cmdActions : List SchemaAction)
    (funcArgs : List (String × PyVal)) (key : String) :
    List (String × PyVal) × Output :=
  match cmdActions.find? (fun a => is_append_action a key) with
  | Option.none => (funcArgs, [])
  | some _ =>
      match funcArgs.lookup key with
      | Option.none => (funcArgs, [])
      | some v =>
          if !pyTruthy v then (funcArgs, [])
          else
            match v with
            | .list items =>
                let flattened := (items.map flattenOne).flatten
                let warn : Output :=
                  if flattened.isEmpty then
                    [(.stderr, "Warning: Argument '" ++ key
                        ++ "' resulted in empty list after flattening")]
                  else []
                (dictSet funcArgs key (.list flattened), warn)
            | _ =>
                (funcArgs,
                 [(.stderr, "Warning: Expected list for argument '" ++ key
                     ++ "', got " ++ pyTypeName v)])

/-- The post-parse loop of `MLArgParser.__parse_cmd_args`: drop every key
whose value is `None`, flatten every append argument. -/
def postProcessArgs (cmdActions : List SchemaAction)
    (funcArgs : List (String × PyVal)) : List (String × PyVal) × Output :=
  (funcArgs.map Prod.fst).foldl
    (fun (st : List (String × PyVal) × Output) key =>
      let (fa, out) := st
      match fa.lookup key with
      | some .none => (fa.filter (fun kv => kv.1 != key), out)
      | some _ =>
          let (fa', out') := flatten_list_argument cmdActions fa key
          (fa', out ++ out')
      | Option.none => (fa, out))
    (funcArgs, [])

/-- The `print_help` text of a built command parser (full rendering is the
external argparse primitive's affair; usage and description are what the
schema carries). -/
def renderHelp (p : CmdParser) : String :=
  p.usage ++ "\n" ++ p.description

/-- The leaf branch of `MLArgParser.__parse_cmd_args`, given the external
parsing primitive's verdict on the remaining argv: on an
`argparse.ArgumentError` the source prints the command parser's help (on
standard output), then an error line on stderr, and exits with status 2;
on success it post-processes the bindings. -/
def parse_cmd_args_leaf (cmdParser : CmdParser)
    (parseResult : Except String (List (String × PyVal))) :
    Except (Output × Nat) (List (String × PyVal) × Output) :=
  match parseResult with
  | .error e =>
      .error ([(.stdout, renderHelp cmdParser), (.stderr, "\nError: " ++ e)], 2)
  | .ok funcArgs => .ok (postProcessArgs cmdParser.actions funcArgs)

/-! ### Helper lemmas: strings -/

/-- Two strings with the same character data are equal. -/
theorem string_data_inj {a b : String} (h : a.data = b.data) : a = b := by
  cases a; cases b; cases h; rfl

/-- A string starts with any of its leading pieces. -/
theorem pyStartsWith_append (pre s : String) : pyStartsWith (pre ++ s) pre = true := by
  simp [pyStartsWith, String.data_append, List.isPrefixOf_iff_prefix]

/-- Dropping the length of a leading piece recovers the remainder. -/
theorem pyDrop_append (pre s : String) :
    pyDrop (pre ++ s) pre.data.length = s := by
  apply string_data_inj
  simp [pyDrop, String.data_append, List.drop_left]

/-- A string that starts with a piece is that piece followed by the rest. -/
theorem startsWith_split {s pre : String} (h : pyStartsWith s pre = true) :
    s = pre ++ pyDrop s pre.data.length := by
  rw [pyStartsWith, List.isPrefixOf_iff_prefix] at h
  obtain ⟨t, ht⟩ := h
  apply string_data_inj
  simp [String.data_append, pyDrop, ← ht, List.drop_left]

/-- Specialisation to the `no_` marker. -/
theorem pyDrop_no_append (s : String) : pyDrop ("no_" ++ s) 3 = s :=
  pyDrop_append "no_" s

/-- A `no_`-named string decomposes as the marker plus its base name. -/
theorem no_split {s : String} (h : pyStartsWith s "no_" = true) :
    s = "no_" ++ pyDrop s 3 :=
  startsWith_split h

/-- `"no_" ++ s` carries the `no_` marker. -/
theorem pyStartsWith_no (s : String) : pyStartsWith ("no_" ++ s) "no_" = true :=
  pyStartsWith_append "no_" s

/-- Replacing characters distributes over append. -/
theorem pyReplaceChar_append (s t : String) (a b : Char) :
    pyReplaceChar (s ++ t) a b = pyReplaceChar s a b ++ pyReplaceChar t a b := by
  apply string_data_inj
  simp [pyReplaceChar, String.data_append]

/-! ### Helper lemmas: dict updates and schema folds -/

/-- Looking up the assigned key finds the new value. -/
theorem lookup_dictSet_self {α : Type} (d : List (String × α)) (k : String) (v : α) :
    (dictSet d k v).lookup k = some v := by
  induction d with
  | nil => simp [dictSet, List.lookup]
  | cons kv rest ih =>
      by_cases h : kv.1 = k
      · simp [dictSet, h, List.lookup]
      · have hbeq : (kv.1 == k) = false := by simpa using h
        have hbeq' : (k == kv.1) = false := by
          simpa using fun hh => h hh.symm
        simp [dictSet, hbeq, List.lookup, hbeq', ih]

/-- Looking up a different key is unaffected by the assignment. -/
theorem lookup_dictSet_ne {α : Type} (d : List (String × α)) {k k' : String} (v : α)
    (h : k' ≠ k) : (dictSet d k v).lookup k' = d.lookup k' := by
  induction d with
  | nil =>
      have hne : (k' == k) = false := by simpa using h
      simp [dictSet, List.lookup, hne]
  | cons kv rest ih =>
      by_cases hk : kv.1 = k
      · have hne : (k' == k) = false := by simpa using h
        simp [dictSet, hk, List.lookup, hne]
      · have hbeq : (kv.1 == k) = false := by simpa using hk
        by_cases hk' : k' = kv.1
        · simp [dictSet, hbeq, List.lookup, hk']
        · have hbeq' : (k' == kv.1) = false := by simpa using hk'
          simp [dictSet, hbeq, List.lookup, hbeq', ih]

/-- The flags `__get_cmd_parser`'s loop declares, with the short-option
tracker threaded from the given state (specification-side restatement of the
fold, used to reason about it). -/
def optsActions (shorts : List String) : List (CmdArg × Default) → List SchemaAction
  | [] => []
  | cd :: rest =>
      let pr := get_options_for_arg shorts cd.1.name
      { options := pr.1, kwargs := cd.1.get_argparse_kwargs,
        inRequiredGroup := cd.1.required } :: optsActions pr.2 rest

/-- The short-option tracker after processing a list of flags. -/
def shortsAfter (shorts : List String) : List (CmdArg × Default) → List String
  | [] => shorts
  | cd :: rest => shortsAfter (get_options_for_arg shorts cd.1.name).2 rest

/-- The defaults dictionary the loop accumulates. -/
def defaultsOf (d0 : List (String × PyVal)) : List (CmdArg × Default) → List (String × PyVal)
  | [] => d0
  | cd :: rest =>
      defaultsOf
        (match cd.2 with
         | .empty => d0
         | .val .none => d0
         | .val v => dictSet d0 cd.1.name v) rest

/-- Characterisation of `__get_cmd_parser`'s loop as the three accumulators. -/
theorem foldl_addArgStep_spec (props : List (CmdArg × Default)) (P : CmdParser)
    (s : List String) :
    props.foldl addArgStep (P, s) =
      ({ P with actions := P.actions ++ optsActions s props,
                defaults := defaultsOf P.defaults props },
       shortsAfter s props) := by
  induction props generalizing P s with
  | nil => simp [optsActions, shortsAfter, defaultsOf]
  | cons cd rest ih =>
      simp only [List.foldl_cons]
      rw [ih]
      simp only [addArgStep, optsActions, shortsAfter, defaultsOf]
      cases cd.2 with
      | empty => simp
      | val v => cases v <;> simp

/-- `__get_cmd_parser` in terms of the accumulator characterisation. -/
theorem getCmdParser_eq {cfg : NodeCfg} {params : List Param}
    {props : List (CmdArg × Default)} (d u : String) (s : List String)
    (h : get_arg_properties cfg params = .ok props) :
    getCmdParser cfg d u s params =
      .ok ({ description := d, usage := u, actions := optsActions s props,
             defaults := defaultsOf [] props },
           shortsAfter s props) := by
  simp only [getCmdParser, h, Except.bind, bind, pure]
  rw [foldl_addArgStep_spec]
  rfl

/-- The kwargs of the declared flags do not depend on the tracker state. -/
theorem optsActions_map_kwargs (s : List String) (props : List (CmdArg × Default)) :
    (optsActions s props).map SchemaAction.kwargs
      = props.map (fun cd => cd.1.get_argparse_kwargs) := by
  induction props generalizing s with
  | nil => rfl
  | cons cd rest ih => simp [optsActions, ih]

/-- One declared flag per yielded property. -/
theorem optsActions_length (s : List String) (props : List (CmdArg × Default)) :
    (optsActions s props).length = props.length := by
  induction props generalizing s with
  | nil => rfl
  | cons cd rest ih => simp [optsActions, ih]

/-- A parameter that trips `__validate_boolean_params`: a boolean parameter
whose name doubles the disable marker, or a disable-named boolean whose base
name is also declared. -/
def boolNameConflict (paramNames : List String) (p : Param) : Prop :=
  TypeValidator.is_bool_type (TypeValidator.normalize_annotation p.ann) = true ∧
  (pyStartsWith p.name "no_no_" = true ∨
   (pyStartsWith p.name "no_" = true ∧ pyDrop p.name 3 ∈ paramNames))

/-- The validation loop cannot succeed when some parameter trips it. -/
theorem validate_go_error {names : List String} {l : List Param}
    (h : ∃ p ∈ l, boolNameConflict names p) :
    validate_boolean_params.go names l ≠ .ok () := by
  induction l with
  | nil => simp at h
  | cons q rest ih =>
      obtain ⟨p, hp, hconf⟩ := h
      simp only [validate_boolean_params.go]
      by_cases hb : TypeValidator.is_bool_type
          (TypeValidator.normalize_annotation q.ann) = true
      · rw [if_pos hb]
        by_cases hnn : pyStartsWith q.name "no_no_" = true
        · rw [if_pos hnn]; simp
        · rw [if_neg hnn]
          by_cases hno : (pyStartsWith q.name "no_"
              && names.contains (pyDrop q.name 3)) = true
          · rw [if_pos hno]; simp
          · rw [if_neg hno]
            rcases List.mem_cons.mp hp with hqp | hrest
            · subst hqp
              rcases hconf.2 with hd | ⟨h1, h2⟩
              · exact absurd hd hnn
              · exact absurd (by simp [h1, h2]) hno
            · exact ih ⟨p, hrest, hconf⟩
      · rw [if_neg hb]
        rcases List.mem_cons.mp hp with hqp | hrest
        · subst hqp; exact absurd hconf.1 hb
        · exact ih ⟨p, hrest, hconf⟩

/-- If boolean validation raises, `__validate_command_signature` records the
single failed-inspection error. -/
theorem validate_signature_of_bool_error {cfg : NodeCfg} {attrName : String}
    {params : List Param} (h : validate_boolean_params params ≠ .ok ()) :
    ∃ e, validate_command_signature cfg attrName params
        = ["Command '" ++ attrName ++ "': Failed to inspect signature: " ++ e] := by
  match hv : validate_boolean_params params with
  | .ok () => exact absurd hv h
  | .error e =>
      refine ⟨e, ?_⟩
      simp [validate_command_signature, hv]

/-- C5: a boolean parameter named `no_no_x`, and a command declaring both `x`
and `no_x` as booleans, always trip `__validate_boolean_params`, and under
strict typing registry construction for such a command fails. -/
theorem C5_signature_conflicts_fail (params : List Param) (cmdName : String)
    (cfg : NodeCfg) (hstrict : cfg.strict_types = true)
    (hname : pyStartsWith cmdName "_" = false)
    (h : (∃ p ∈ params,
            TypeValidator.is_bool_type
              (TypeValidator.normalize_annotation p.ann) = true ∧
            pyStartsWith p.name "no_no_" = true) ∨
         (∃ p ∈ params, ∃ q ∈ params,
            TypeValidator.is_bool_type
              (TypeValidator.normalize_annotation p.ann) = true ∧
            TypeValidator.is_bool_type
              (TypeValidator.normalize_annotation q.ann) = true ∧
            q.name = "no_" ++ p.name)) :
    validate_boolean_params params ≠ .ok () ∧
    ∀ r, init_commands cfg [(cmdName, Attr.method params)] ≠ .ok r := by
  have hfail : validate_boolean_params params ≠ .ok () := by
    rw [validate_boolean_params]
    apply validate_go_error
    rcases h with ⟨p, hp, hb, hd⟩ | ⟨p, hp, q, hq, hbp, hbq, hqname⟩
    · exact ⟨p, hp, hb, Or.inl hd⟩
    · refine ⟨q, hq, hbq, Or.inr ⟨?_, ?_⟩⟩
      · rw [hqname]; exact pyStartsWith_no p.name
      · rw [hqname, pyDrop_no_append]
        exact List.mem_map_of_mem Param.name hp
  refine ⟨hfail, ?_⟩
  intro r
  obtain ⟨e, he⟩ := @validate_signature_of_bool_error cfg cmdName _ hfail
  simp [init_commands, initStep, Attr.isCallableAttr, hname, he, hstrict,
        InitState.collisions, InitState.errors]

/-- Witness for C5: `cmd(self, no_no_x: bool)` and
`cmd(self, cache: bool = True, no_cache: bool = False)` both fail. -/
theorem C5_signature_conflicts_fail_witness :
    (validate_boolean_params [⟨"no_no_x", .bool, .empty⟩] ≠ .ok () ∧
      ∀ r, init_commands {} [("cmd", Attr.method [⟨"no_no_x", .bool, .empty⟩])] ≠ .ok r) ∧
    (validate_boolean_params
        [⟨"cache", .bool, .val (.bool true)⟩, ⟨"no_cache", .bool, .val (.bool false)⟩]
        ≠ .ok () ∧
      ∀ r, init_commands {}
          [("cmd", Attr.method
              [⟨"cache", .bool, .val (.bool true)⟩,
               ⟨"no_cache", .bool, .val (.bool false)⟩])] ≠ .ok r) := by
  constructor
  · exact C5_signature_conflicts_fail [⟨"no_no_x", .bool, .empty⟩] "cmd" {}
      rfl (by decide) (Or.inl (by decide))
  · exact C5_signature_conflicts_fail
      [⟨"cache", .bool, .val (.bool true)⟩, ⟨"no_cache", .bool, .val (.bool false)⟩]
      "cmd" {} rfl (by decide) (Or.inr (by decide))

/-! ### C9: boolean help-text augmentation -/

/-- A parameter that the source treats as boolean (bool-typed after
normalisation) and does not route through the collection branch is annotated
`bool` or `Optional[bool]`. -/
theorem bool_ann_cases {a : Ann}
    (hb : TypeValidator.is_bool_type (TypeValidator.normalize_annotation a) = true)
    (hc : is_collection_type a = Option.none) :
    a = .bool ∨ a = .optional .bool := by
  cases a with
  | bool => exact Or.inl rfl
  | optional t =>
      by_cases ht : t = Ann.noneAnn
      · subst ht
        simp [TypeValidator.is_bool_type, TypeValidator.normalize_annotation,
              getOrigin, getArgs, List.filter] at hb
      · have hbne : (t != Ann.noneAnn) = true := bne_iff_ne.mpr ht
        have hbt : t = Ann.bool := by
          simpa [TypeValidator.is_bool_type, TypeValidator.normalize_annotation,
                 getOrigin, getArgs, List.filter, hbne] using hb
        exact Or.inr (by rw [hbt])
  | listOf t => simp [is_collection_type] at hc
  | setOf t => simp [is_collection_type] at hc
  | tupleOf t => simp [is_collection_type] at hc
  | empty =>
      simp [TypeValidator.is_bool_type, TypeValidator.normalize_annotation,
            getOrigin] at hb
  | noneAnn =>
      simp [TypeValidator.is_bool_type, TypeValidator.normalize_annotation,
            getOrigin] at hb
  | strAnn s =>
      simp [TypeValidator.is_bool_type, TypeValidator.normalize_annotation,
            getOrigin] at hb
  | int =>
      simp [TypeValidator.is_bool_type, TypeValidator.normalize_annotation,
            getOrigin] at hb
  | str =>
      simp [TypeValidator.is_bool_type, TypeValidator.normalize_annotation,
            getOrigin] at hb
  | float =>
      simp [TypeValidator.is_bool_type, TypeValidator.normalize_annotation,
            getOrigin] at hb
  | list0 =>
      simp [TypeValidator.is_bool_type, TypeValidator.normalize_annotation,
            getOrigin] at hb
  | set0 =>
      simp [TypeValidator.is_bool_type, TypeValidator.normalize_annotation,
            getOrigin] at hb
  | tuple0 =>
      simp [TypeValidator.is_bool_type, TypeValidator.normalize_annotation,
            getOrigin] at hb
  | dict0 =>
      simp [TypeValidator.is_bool_type, TypeValidator.normalize_annotation,
            getOrigin] at hb
  | custom n c =>
      simp [TypeValidator.is_bool_type, TypeValidator.normalize_annotation,
            getOrigin] at hb

/-- On a `bool` / `Optional[bool]` parameter, `CmdArg.__init__` lands in the
boolean branch. -/
theorem cmdArgInit_bool {p : Param} (desc : String)
    (ha : p.ann = .bool ∨ p.ann = .optional .bool) :
    cmdArgInit p desc =
      .ok (setupBoolean
        { name := p.name, type := p.ann, desc := desc,
          parser := Option.none, action := ActionKind.store, nargs := Option.none,
          required := false } p) := by
  obtain ⟨n, a, d⟩ := p
  rcases ha with h | h <;> (cases h; rfl)

/-- The help text `__setup_boolean_type` leaves on a boolean flag. -/
def boolDescOf (name desc : String) (d : Default) : String :=
  if pyStartsWith name "no_" then
    if desc != STR_UNDOCUMENTED && d == Default.val (.bool true) then
      "Explicitly disable " ++ pyReplaceChar (pyDrop name 3) '_' ' '
    else desc
  else if d == Default.val (.bool true) then desc ++ " [enabled by default]"
  else if d == Default.val (.bool false) then desc ++ " [disabled by default]"
  else desc

/-- `__setup_boolean_type` in one equation. -/
theorem setupBoolean_eq (c : CmdArg) (sig : Param) :
    setupBoolean c sig =
      { c with parser := Option.none, required := false,
               action := if pyStartsWith c.name "no_" then ActionKind.storeFalse
                         else ActionKind.storeTrue,
               desc := boolDescOf c.name c.desc sig.default } := by
  by_cases h1 : pyStartsWith c.name "no_"
  · by_cases h2 : (c.desc != STR_UNDOCUMENTED
        && sig.default == Default.val (.bool true)) = true
    · simp [setupBoolean, boolDescOf, h1, h2]
    · simp [setupBoolean, boolDescOf, h1, h2]
  · by_cases h2 : sig.default == Default.val (.bool true)
    · simp [setupBoolean, boolDescOf, h1, h2]
    · by_cases h3 : sig.default == Default.val (.bool false)
      · simp [setupBoolean, boolDescOf, h1, h2, h3]
      · simp [setupBoolean, boolDescOf, h1, h2, h3]

/-- C9 (amended): for boolean parameters, a positive flag defaulting to true
gets "[enabled by default]" appended, one defaulting to false gets
"[disabled by default]" appended; a `no_`-prefixed disable flag whose
signature default is true has its help replaced by "Explicitly disable
<humanized base name>" — but only when its help text is not the undocumented
sentinel; otherwise (sentinel help, or default not true) a disable flag's
help is left unchanged. -/
theorem C9_bool_help_text (name desc : String) (d : Default) (ann : Ann)
    (hb : TypeValidator.is_bool_type (TypeValidator.normalize_annotation ann) = true)
    (hc : is_collection_type ann = Option.none) :
    (pyStartsWith name "no_" = false → d = .val (.bool true) →
      (cmdArgInit ⟨name, ann, d⟩ desc).map CmdArg.desc
        = .ok (desc ++ " [enabled by default]")) ∧
    (pyStartsWith name "no_" = false → d = .val (.bool false) →
      (cmdArgInit ⟨name, ann, d⟩ desc).map CmdArg.desc
        = .ok (desc ++ " [disabled by default]")) ∧
    (pyStartsWith name "no_" = true → d = .val (.bool true) →
      desc ≠ STR_UNDOCUMENTED →
      (cmdArgInit ⟨name, ann, d⟩ desc).map CmdArg.desc
        = .ok ("Explicitly disable " ++ pyReplaceChar (pyDrop name 3) '_' ' ')) ∧
    (pyStartsWith name "no_" = true →
      (desc = STR_UNDOCUMENTED ∨ d ≠ .val (.bool true)) →
      (cmdArgInit ⟨name, ann, d⟩ desc).map CmdArg.desc = .ok desc) := by
  have hinit := @cmdArgInit_bool ⟨name, ann, d⟩ desc (bool_ann_cases hb hc)
  rw [hinit, setupBoolean_eq]
  refine ⟨?_, ?_, ?_, ?_⟩
  · intro h1 h2
    subst h2
    simp [Except.map, boolDescOf, h1]
  · intro h1 h2
    subst h2
    simp [Except.map, boolDescOf, h1]
  · intro h1 h2 h3
    subst h2
    simp [Except.map, boolDescOf, h1, bne_iff_ne, h3]
  · intro h1 h2
    rcases h2 with h2 | h2
    · subst h2
      simp [Except.map, boolDescOf, h1]
    · simp [Except.map, boolDescOf, h1, h2]

/-- Witness for C9: the three augmentation rules at concrete inputs. -/
theorem C9_bool_help_text_witness :
    ((cmdArgInit ⟨"cache", .bool, .val (.bool true)⟩ "Enable cache").map CmdArg.desc
       = .ok "Enable cache [enabled by default]") ∧
    ((cmdArgInit ⟨"verbose", .bool, .val (.bool false)⟩ "Be chatty").map CmdArg.desc
       = .ok "Be chatty [disabled by default]") ∧
    ((cmdArgInit ⟨"no_cache", .bool, .val (.bool true)⟩ "Enable cache").map CmdArg.desc
       = .ok ("Explicitly disable " ++ pyReplaceChar (pyDrop "no_cache" 3) '_' ' ')) := by
  refine ⟨?_, ?_, ?_⟩
  · exact (C9_bool_help_text "cache" "Enable cache" (.val (.bool true)) .bool
      (by decide) (by decide)).1 (by decide) rfl
  · exact (C9_bool_help_text "verbose" "Be chatty" (.val (.bool false)) .bool
      (by decide) (by decide)).2.1 (by decide) rfl
  · exact (C9_bool_help_text "no_cache" "Enable cache" (.val (.bool true)) .bool
      (by decide) (by decide)).2.2.1 (by decide) rfl (by decide)

/-- Counterexample to C9 as stated: an undocumented disable flag whose
default is true keeps the sentinel help text — it is not replaced by
"Explicitly disable cache". -/
theorem C9_bool_help_text_counterexample :
    (cmdArgInit ⟨"no_cache", .bool, .val (.bool true)⟩ STR_UNDOCUMENTED).map CmdArg.desc
      = .ok STR_UNDOCUMENTED ∧
    STR_UNDOCUMENTED ≠ "Explicitly disable cache" := by
  exact ⟨rfl, by decide⟩

/-! ### C8: textual (forward-reference) annotations -/

/-- C8 (amended): a parameter whose top-level declared type is a textual
annotation is rejected at validation with a type error naming the parameter —
whether or not the string names a builtin (`"int"` included).  String
annotations are resolved against builtin names only where they appear as
collection element types: `list["int"]` gets the `int` parser, and an
unresolvable element reference fails with a type error naming the parameter.
No failure path defaults silently to text. -/
theorem C8_string_annotations (name s desc : String) (d : Default)
    (hs : resolve_string_annotation s
        = .error ("Cannot resolve string annotation: " ++ s)) :
    cmdArgInit ⟨name, .strAnn s, d⟩ desc
      = .error ("Invalid type annotation for parameter '" ++ name ++ "': "
          ++ ("String annotation '" ++ s ++ "' cannot be resolved. Use actual type.")) ∧
    cmdArgInit ⟨name, .strAnn "int", d⟩ desc
      = .error ("Invalid type annotation for parameter '" ++ name ++ "': "
          ++ ("String annotation '" ++ "int" ++ "' cannot be resolved. Use actual type.")) ∧
    (cmdArgInit ⟨name, .listOf (.strAnn "int"), d⟩ desc).map CmdArg.parser
      = .ok (some .intP) ∧
    cmdArgInit ⟨name, .listOf (.strAnn s), d⟩ desc
      = .error ("Invalid type annotation for parameter '" ++ name ++ "': "
          ++ ("Cannot resolve string annotation: " ++ s)) := by
  refine ⟨rfl, rfl, ?_, ?_⟩
  · cases d <;> rfl
  · simp [cmdArgInit, TypeValidator.is_valid_annotation, is_collection_type,
      setupCollection, get_parser_for_type, normalize_type_annotation, hs,
      annCallable, getOrigin, AST_TYPES, annText]

/-- Witness for C8 at the unresolvable reference `"NotAType"`. -/
theorem C8_string_annotations_witness :
    cmdArgInit ⟨"nums", .listOf (.strAnn "NotAType"), .empty⟩ STR_UNDOCUMENTED
      = .error ("Invalid type annotation for parameter '" ++ "nums" ++ "': "
          ++ ("Cannot resolve string annotation: " ++ "NotAType")) :=
  (C8_string_annotations "nums" "NotAType" STR_UNDOCUMENTED .empty rfl).2.2.2

/-- Counterexample to C8 as stated: the textual annotation `"int"` on a
parameter does not resolve to the `int` parser — the parameter is rejected
outright. -/
theorem C8_string_annotations_counterexample :
    cmdArgInit ⟨"value", .strAnn "int", .empty⟩ STR_UNDOCUMENTED
      = .error ("Invalid type annotation for parameter '" ++ "value" ++ "': "
          ++ ("String annotation '" ++ "int" ++ "' cannot be resolved. Use actual type.")) :=
  rfl

/-! ### C2: flattening repeated collection flags -/

/-- C2: for a repeated (append) parameter supplied as a list of per-occurrence
value lists, post-parse flattening binds the key to the concatenation of the
occurrences in encounter order; the empty-result case only warns (the
function returns updated bindings, never an error). -/
theorem C2_repeated_flag_flattening (cmdActions : List SchemaAction)
    (funcArgs : List (String × PyVal)) (key : String) (vss : List (List PyVal))
    (hact : (cmdActions.find? (fun a => is_append_action a key)).isSome = true)
    (hval : funcArgs.lookup key = some (.list (vss.map PyVal.list)))
    (hne : vss ≠ []) :
    (flatten_list_argument cmdActions funcArgs key).1.lookup key
        = some (.list vss.flatten) ∧
    (flatten_list_argument cmdActions funcArgs key).2
        = (if vss.flatten.isEmpty then
             [(Chan.stderr, "Warning: Argument '" ++ key
                 ++ "' resulted in empty list after flattening")]
           else []) := by
  obtain ⟨a, ha⟩ := Option.isSome_iff_exists.mp hact
  have htruthy : pyTruthy (.list (vss.map PyVal.list)) = true := by
    simp [pyTruthy, hne]
  have hcomp : flattenOne ∘ PyVal.list = id := funext (fun xs => rfl)
  have hflat : ((vss.map PyVal.list).map flattenOne).flatten = vss.flatten := by
    rw [List.map_map, hcomp, List.map_id]
  simp only [flatten_list_argument, ha, hval, htruthy, Bool.not_true,
    Bool.false_eq_true, if_false, hflat]
  exact ⟨lookup_dictSet_self funcArgs key _, trivial⟩

/-- Witness for C2: two occurrences `[a, b]` and `[c]` flatten to `[a, b, c]`
with no warning. -/
theorem C2_repeated_flag_flattening_witness :
    (flatten_list_argument
        [{ options := ["--tags", "-t"],
           kwargs := { help := "h", required := false, dest := "tags",
                       action := ActionKind.append, typeSlot := some .strP,
                       nargsSlot := some "+" },
           inRequiredGroup := false }]
        [("tags", PyVal.list [PyVal.list [.str "a", .str "b"], PyVal.list [.str "c"]])]
        "tags").1.lookup "tags"
      = some (.list [.str "a", .str "b", .str "c"]) ∧
    (flatten_list_argument
        [{ options := ["--tags", "-t"],
           kwargs := { help := "h", required := false, dest := "tags",
                       action := ActionKind.append, typeSlot := some .strP,
                       nargsSlot := some "+" },
           inRequiredGroup := false }]
        [("tags", PyVal.list [PyVal.list [.str "a", .str "b"], PyVal.list [.str "c"]])]
        "tags").2 = [] := by
  have h := C2_repeated_flag_flattening
    [{ options := ["--tags", "-t"],
       kwargs := { help := "h", required := false, dest := "tags",
                   action := ActionKind.append, typeSlot := some .strP,
                   nargsSlot := some "+" },
       inRequiredGroup := false }]
    [("tags", PyVal.list [PyVal.list [.str "a", .str "b"], PyVal.list [.str "c"]])]
    "tags" [[.str "a", .str "b"], [.str "c"]] rfl rfl (by simp)
  simpa using h

/-! ### Shape lemmas for `__get_arg_properties` and the schema fold -/

theorem setupCollection_name_type {c : CmdArg} {sig : Param} {et : Ann} {c' : CmdArg}
    (h : setupCollection c sig et = .ok c') : c'.name = c.name ∧ c'.type = c.type := by
  unfold setupCollection at h
  split at h
  · cases h
  · cases h
    exact ⟨rfl, rfl⟩

theorem setupRegular_name_type {c : CmdArg} {sig : Param} {c' : CmdArg}
    (h : setupRegular c sig = .ok c') : c'.name = c.name ∧ c'.type = c.type := by
  unfold setupRegular at h
  split at h
  · cases h
  · split at h
    · cases h
      exact ⟨rfl, rfl⟩
    · cases h
      exact ⟨rfl, rfl⟩

theorem cmdArgInit_name_type {sig : Param} {desc : String} {c : CmdArg}
    (h : cmdArgInit sig desc = .ok c) :
    c.name = sig.name ∧ c.type = sig.ann := by
  unfold cmdArgInit at h
  split at h
  · cases h
  · simp only [] at h
    split at h
    · exact setupCollection_name_type h
    · split at h
      · cases h
        rw [setupBoolean_eq]
        exact ⟨rfl, rfl⟩
      · exact setupRegular_name_type h



theorem argPropsFor_shape {cfg : NodeCfg} {names : List String} {q : Param}
    {l : List (CmdArg × Default)} (hok : argPropsFor cfg names q = .ok l) :
    (∃ c, l = [(c, q.default)] ∧ c.name = q.name ∧ c.type = q.ann) ∨
    (∃ c c2, l = [(c, q.default), (c2, Default.val .none)]
      ∧ c.name = q.name ∧ c.type = q.ann
      ∧ c2.name = "no_" ++ q.name ∧ c2.type = q.ann) := by
  unfold argPropsFor at hok
  simp only [] at hok
  cases hc : cmdArgInit q (descFor cfg.arg_desc q.name) with
  | error e =>
      rw [hc] at hok
      simp only [bind, Except.bind] at hok
      cases hok
  | ok c =>
      rw [hc] at hok
      obtain ⟨hcn, hct⟩ := cmdArgInit_name_type hc
      simp only [bind, Except.bind, pure, Except.pure] at hok
      split at hok
      · split at hok
        · cases hok
          exact Or.inl ⟨c, rfl, hcn, hct⟩
        · split at hok
          · cases hok
            exact Or.inl ⟨c, rfl, hcn, hct⟩
          · cases hc2 : cmdArgInit { q with name := "no_" ++ q.name }
                (descFor cfg.arg_desc q.name) with
            | error e =>
                rw [hc2] at hok
                simp only [bind, Except.bind] at hok
                cases hok
            | ok c2 =>
                rw [hc2] at hok
                simp only [bind, Except.bind, pure, Except.pure] at hok
                cases hok
                obtain ⟨hcn2, hct2⟩ := cmdArgInit_name_type hc2
                exact Or.inr ⟨c, c2, rfl, hcn, hct, hcn2, hct2⟩
      · cases hok
        exact Or.inl ⟨c, rfl, hcn, hct⟩



theorem kwargs_dest_cases (c : CmdArg) :
    c.get_argparse_kwargs.dest = c.name ∨
    (pyStartsWith c.name "no_" = true
      ∧ c.get_argparse_kwargs.dest = pyDrop c.name 3) := by
  unfold CmdArg.get_argparse_kwargs
  by_cases h : (TypeValidator.is_bool_type (TypeValidator.normalize_annotation c.type)
      && pyStartsWith c.name "no_") = true
  · right
    refine ⟨(Bool.and_eq_true _ _ |>.mp h).2, ?_⟩
    simp [h]
  · left
    simp [h]

theorem argPropsFor_other_param {cfg : NodeCfg} {names : List String}
    {p q : Param} {l : List (CmdArg × Default)}
    (hq1 : q.name ≠ p.name) (hq2 : q.name ≠ "no_" ++ p.name)
    (hnp : pyStartsWith p.name "no_" = false)
    (hok : argPropsFor cfg names q = .ok l) :
    ∀ cd ∈ l, cd.1.get_argparse_kwargs.dest ≠ p.name ∧ cd.1.name ≠ p.name := by
  have hname : ∀ c : CmdArg, c.name = q.name →
      c.get_argparse_kwargs.dest ≠ p.name ∧ c.name ≠ p.name := by
    intro c hc
    refine ⟨?_, by rw [hc]; exact hq1⟩
    rcases kwargs_dest_cases c with hd | ⟨hs, hd⟩
    · rw [hd, hc]; exact hq1
    · rw [hd]
      intro hdp
      have hsplit := no_split hs
      rw [hdp, hc] at hsplit
      exact hq2 hsplit
  have hname2 : ∀ c : CmdArg, c.name = "no_" ++ q.name →
      c.get_argparse_kwargs.dest ≠ p.name ∧ c.name ≠ p.name := by
    intro c hc
    have hnep : c.name ≠ p.name := by
      rw [hc]
      intro hcp
      rw [← hcp, pyStartsWith_no] at hnp
      cases hnp
    refine ⟨?_, hnep⟩
    rcases kwargs_dest_cases c with hd | ⟨hs, hd⟩
    · rw [hd]; exact hnep
    · rw [hd, hc, pyDrop_no_append]
      exact hq1
  rcases argPropsFor_shape hok with ⟨c, hl, hcn, _⟩ | ⟨c, c2, hl, hcn, _, hcn2, _⟩
  · subst hl
    intro cd hcd
    rcases List.mem_singleton.mp hcd with rfl
    exact hname c hcn
  · subst hl
    intro cd hcd
    rcases List.mem_cons.mp hcd with rfl | hcd
    · exact hname c hcn
    · rcases List.mem_singleton.mp hcd with rfl
      exact hname2 c2 hcn2

theorem argPropsFor_bool_true {cfg : NodeCfg} {names : List String} {p : Param}
    (hauto : cfg.auto_disable_flags = true)
    (ha : p.ann = .bool ∨ p.ann = .optional .bool)
    (hd : p.default = .val (.bool true))
    (hnn : ("no_" ++ p.name) ∉ names)
    (hnp : pyStartsWith p.name "no_" = false) :
    argPropsFor cfg names p =
      .ok [(setupBoolean
              { name := p.name, type := p.ann,
                desc := descFor cfg.arg_desc p.name, parser := Option.none,
                action := ActionKind.store, nargs := Option.none,
                required := false } p, p.default),
           (setupBoolean
              { name := "no_" ++ p.name, type := p.ann,
                desc := descFor cfg.arg_desc p.name, parser := Option.none,
                action := ActionKind.store, nargs := Option.none,
                required := false } { p with name := "no_" ++ p.name },
            Default.val .none)] := by
  have hb : TypeValidator.is_bool_type (TypeValidator.normalize_annotation p.ann)
      = true := by
    rcases ha with h | h <;> rw [h] <;> rfl
  have h1 := @cmdArgInit_bool p (descFor cfg.arg_desc p.name) ha
  have h2 := @cmdArgInit_bool { p with name := "no_" ++ p.name }
    (descFor cfg.arg_desc p.name) (by simpa using ha)
  unfold argPropsFor
  simp only []
  rw [h1]
  simp only [bind, Except.bind]
  rw [if_pos (by simp [hauto, hb, hd]), if_neg (by simpa using hnn),
      if_neg (by simp [hnp])]
  rw [h2]
  simp only [bind, Except.bind, pure, Except.pure]




theorem defaultsOf_append (d0 : List (String × PyVal)) (l l' : List (CmdArg × Default)) :
    defaultsOf d0 (l ++ l') = defaultsOf (defaultsOf d0 l) l' := by
  induction l generalizing d0 with
  | nil => rfl
  | cons cd rest ih => simp [defaultsOf, ih]

theorem defaultsOf_lookup_ne {pname : String} {l : List (CmdArg × Default)}
    (h : ∀ cd ∈ l, cd.1.name ≠ pname) (d0 : List (String × PyVal)) :
    (defaultsOf d0 l).lookup pname = d0.lookup pname := by
  induction l generalizing d0 with
  | nil => rfl
  | cons cd rest ih =>
      have hhd : cd.1.name ≠ pname := h cd (List.mem_cons_self _ _)
      have htl : ∀ cd' ∈ rest, cd'.1.name ≠ pname :=
        fun cd' h' => h cd' (List.mem_cons_of_mem _ h')
      cases hd : cd.2 with
      | empty => simpa [defaultsOf, hd] using ih htl _
      | val v =>
          cases v with
          | none => simpa [defaultsOf, hd] using ih htl _
          | bool b =>
              simp only [defaultsOf, hd]
              rw [ih htl, lookup_dictSet_ne _ _ (fun hh => hhd hh.symm)]
          | int n =>
              simp only [defaultsOf, hd]
              rw [ih htl, lookup_dictSet_ne _ _ (fun hh => hhd hh.symm)]
          | str st =>
              simp only [defaultsOf, hd]
              rw [ih htl, lookup_dictSet_ne _ _ (fun hh => hhd hh.symm)]
          | list xs =>
              simp only [defaultsOf, hd]
              rw [ih htl, lookup_dictSet_ne _ _ (fun hh => hhd hh.symm)]

theorem go_append {cfg : NodeCfg} {names : List String} :
    ∀ {l₁ l₂ : List Param} {props : List (CmdArg × Default)},
    get_arg_properties.go cfg names (l₁ ++ l₂) = .ok props →
    ∃ la lb, get_arg_properties.go cfg names l₁ = .ok la ∧
      get_arg_properties.go cfg names l₂ = .ok lb ∧ props = la ++ lb := by
  intro l₁
  induction l₁ with
  | nil =>
      intro l₂ props hok
      exact ⟨[], props, rfl, hok, rfl⟩
  | cons q rest ih =>
      intro l₂ props hok
      simp only [List.cons_append, get_arg_properties.go] at hok
      cases hq : argPropsFor cfg names q with
      | error e => rw [hq] at hok; simp only [bind, Except.bind] at hok; cases hok
      | ok lq =>
          rw [hq] at hok
          simp only [bind, Except.bind, List.append_eq] at hok
          cases hrest : get_arg_properties.go cfg names (rest ++ l₂) with
          | error e => rw [hrest] at hok; cases hok
          | ok l' =>
              rw [hrest] at hok
              simp only [pure, Except.pure] at hok
              cases hok
              obtain ⟨la', lb, h1, h2, h3⟩ := ih hrest
              refine ⟨lq ++ la', lb, ?_, h2, by rw [h3, List.append_assoc]⟩
              simp only [get_arg_properties.go, hq, bind, Except.bind, h1, pure, Except.pure]

theorem go_cons_ok {cfg : NodeCfg} {names : List String} {q : Param}
    {rest : List Param} {props : List (CmdArg × Default)}
    (hok : get_arg_properties.go cfg names (q :: rest) = .ok props) :
    ∃ lq lr, argPropsFor cfg names q = .ok lq ∧
      get_arg_properties.go cfg names rest = .ok lr ∧ props = lq ++ lr := by
  simp only [get_arg_properties.go] at hok
  cases hq : argPropsFor cfg names q with
  | error e => rw [hq] at hok; simp only [bind, Except.bind] at hok; cases hok
  | ok lq =>
      rw [hq] at hok
      simp only [bind, Except.bind] at hok
      cases hrest : get_arg_properties.go cfg names rest with
      | error e => rw [hrest] at hok; cases hok
      | ok lr =>
          rw [hrest] at hok
          simp only [pure, Except.pure] at hok
          cases hok
          exact ⟨lq, lr, rfl, rfl, rfl⟩

theorem go_props_ne {cfg : NodeCfg} {names : List String} {p : Param}
    (hnp : pyStartsWith p.name "no_" = false) :
    ∀ {ps : List Param} {props : List (CmdArg × Default)},
    (∀ q ∈ ps, q.name ≠ p.name ∧ q.name ≠ "no_" ++ p.name) →
    get_arg_properties.go cfg names ps = .ok props →
    ∀ cd ∈ props, cd.1.get_argparse_kwargs.dest ≠ p.name ∧ cd.1.name ≠ p.name := by
  intro ps
  induction ps with
  | nil =>
      intro props _ hok
      cases hok
      intro cd hcd
      cases hcd
  | cons q rest ih =>
      intro props hq hok
      obtain ⟨lq, lr, h1, h2, h3⟩ := go_cons_ok hok
      subst h3
      intro cd hcd
      rcases List.mem_append.mp hcd with hmem | hmem
      · exact argPropsFor_other_param (hq q (List.mem_cons_self _ _)).1
          (hq q (List.mem_cons_self _ _)).2 hnp h1 cd hmem
      · exact ih (fun q' hq' => hq q' (List.mem_cons_of_mem _ hq')) h2 cd hmem



theorem is_bool_of_cases {a : Ann} (ha : a = .bool ∨ a = .optional .bool) :
    TypeValidator.is_bool_type (TypeValidator.normalize_annotation a) = true := by
  rcases ha with h | h <;> rw [h] <;> rfl

theorem bool_entry_kwargs {p : Param} (desc : String)
    (ha : p.ann = .bool ∨ p.ann = .optional .bool)
    (hnp : pyStartsWith p.name "no_" = false) :
    (setupBoolean { name := p.name, type := p.ann, desc := desc,
                    parser := Option.none, action := ActionKind.store,
                    nargs := Option.none, required := false } p).get_argparse_kwargs
      = { help := boolDescOf p.name desc p.default, required := false,
          dest := p.name, action := ActionKind.storeTrue,
          typeSlot := Option.none, nargsSlot := Option.none } := by
  rw [setupBoolean_eq]
  unfold CmdArg.get_argparse_kwargs
  simp [hnp, is_bool_of_cases ha]

theorem bool_entry2_kwargs {p : Param} (desc : String)
    (ha : p.ann = .bool ∨ p.ann = .optional .bool) :
    (setupBoolean { name := "no_" ++ p.name, type := p.ann, desc := desc,
                    parser := Option.none, action := ActionKind.store,
                    nargs := Option.none, required := false }
        { p with name := "no_" ++ p.name }).get_argparse_kwargs
      = { help := boolDescOf ("no_" ++ p.name) desc
            ({ p with name := "no_" ++ p.name } : Param).default,
          required := false, dest := p.name, action := ActionKind.storeFalse,
          typeSlot := Option.none, nargsSlot := Option.none } := by
  rw [setupBoolean_eq]
  unfold CmdArg.get_argparse_kwargs
  simp [pyStartsWith_no, is_bool_of_cases ha, pyDrop_no_append]

theorem setupBoolean_name (c : CmdArg) (sig : Param) :
    (setupBoolean c sig).name = c.name := by
  rw [setupBoolean_eq]

theorem go_split_bool_true {cfg : NodeCfg} {names : List String} {p : Param}
    (hauto : cfg.auto_disable_flags = true)
    (ha : p.ann = .bool ∨ p.ann = .optional .bool)
    (hd : p.default = .val (.bool true))
    (hnn : ("no_" ++ p.name) ∉ names)
    (hnp : pyStartsWith p.name "no_" = false)
    {l₁ l₂ : List Param} {props : List (CmdArg × Default)}
    (hother : ∀ q, q ∈ l₁ ∨ q ∈ l₂ → q.name ≠ p.name ∧ q.name ≠ "no_" ++ p.name)
    (hok : get_arg_properties.go cfg names (l₁ ++ p :: l₂) = .ok props) :
    (props.filter (fun cd => cd.1.get_argparse_kwargs.dest == p.name)).map
        (fun cd => (cd.1.get_argparse_kwargs.action,
                    cd.1.get_argparse_kwargs.required, cd.1.name))
      = [(ActionKind.storeTrue, false, p.name),
         (ActionKind.storeFalse, false, "no_" ++ p.name)] ∧
    ∀ d0, (defaultsOf d0 props).lookup p.name = some (.bool true) := by
  obtain ⟨la, lc, h1, h2, h3⟩ := go_append hok
  obtain ⟨lp, lb, hp, hb2, hc3⟩ := go_cons_ok h2
  subst h3
  subst hc3
  rw [argPropsFor_bool_true hauto ha hd hnn hnp] at hp
  cases hp
  have hLa := go_props_ne hnp (fun q hq => hother q (Or.inl hq)) h1
  have hLb := go_props_ne hnp (fun q hq => hother q (Or.inr hq)) hb2
  have hk1 := bool_entry_kwargs (descFor cfg.arg_desc p.name) ha hnp
  have hk2 := bool_entry2_kwargs (descFor cfg.arg_desc p.name) ha
  constructor
  · rw [List.filter_append]
    have hfa : la.filter (fun cd => cd.1.get_argparse_kwargs.dest == p.name) = [] := by
      rw [List.filter_eq_nil_iff]
      intro cd hcd
      simpa using (hLa cd hcd).1
    have hfb : lb.filter (fun cd => cd.1.get_argparse_kwargs.dest == p.name) = [] := by
      rw [List.filter_eq_nil_iff]
      intro cd hcd
      simpa using (hLb cd hcd).1
    rw [hfa]
    simp only [List.nil_append, List.filter, hk1, hk2]
    simp [hfb, hk1, hk2, setupBoolean_name]
  · intro d0
    rw [defaultsOf_append]
    simp only [defaultsOf, hd]
    simp only [List.append_eq, List.nil_append]
    rw [defaultsOf_lookup_ne (fun cd hcd => (hLb cd hcd).2)]
    rw [setupBoolean_name]
    exact lookup_dictSet_self _ _ _



theorem get_options_head (s : List String) (n : String) :
    (get_options_for_arg s n).1.head? = some ("--" ++ pyReplaceChar n '_' '-') := by
  by_cases h : ("-" ++ pyTake n 1) ∈ s
  · simp [get_options_for_arg, h]
  · simp [get_options_for_arg, h]

theorem optsActions_filter_proj (pname : String) :
    ∀ (props : List (CmdArg × Default)) (s : List String),
    ((optsActions s props).filter (fun a => a.kwargs.dest == pname)).map
        (fun a => (a.kwargs.action, a.kwargs.required, a.options.head?))
      = (props.filter (fun cd => cd.1.get_argparse_kwargs.dest == pname)).map
          (fun cd => (cd.1.get_argparse_kwargs.action,
                      cd.1.get_argparse_kwargs.required,
                      some ("--" ++ pyReplaceChar cd.1.name '_' '-'))) := by
  intro props
  induction props with
  | nil => intro s; rfl
  | cons cd rest ih =>
      intro s
      simp only [optsActions, List.filter]
      by_cases h : (cd.1.get_argparse_kwargs.dest == pname) = true
      · simp only [h, List.map_cons, ih, get_options_head]
      · simp only [h]
        exact ih _

/-- C1: a boolean parameter defaulting to `True`, whose name does not carry
the `no_` marker and with no declared `no_<name>` companion, yields exactly
two flags sharing the destination key `<name>` in the built schema — the
positive long flag with the set-true action and the synthetic `no_<name>`
long flag with the set-false action, neither required — and the parser's
defaults initialize `<name>` to `True`. -/
theorem C1_bool_true_dual_flags (cfg : NodeCfg) (d u : String)
    (params : List Param) (props : List (CmdArg × Default))
    (parser : CmdParser) (sEnd : List String) (p : Param)
    (hauto : cfg.auto_disable_flags = true)
    (hmem : p ∈ params)
    (hnodup : (params.map Param.name).Nodup)
    (hb : TypeValidator.is_bool_type (TypeValidator.normalize_annotation p.ann)
        = true)
    (hcoll : is_collection_type p.ann = Option.none)
    (hd : p.default = .val (.bool true))
    (hnp : pyStartsWith p.name "no_" = false)
    (hno : ("no_" ++ p.name) ∉ params.map Param.name)
    (hprops : get_arg_properties cfg params = .ok props)
    (hparser : getCmdParser cfg d u [] params = .ok (parser, sEnd)) :
    (parser.actions.filter (fun a => a.kwargs.dest == p.name)).map
        (fun a => (a.kwargs.action, a.kwargs.required, a.options.head?))
      = [(ActionKind.storeTrue, false,
            some ("--" ++ pyReplaceChar p.name '_' '-')),
         (ActionKind.storeFalse, false,
            some ("--" ++ pyReplaceChar ("no_" ++ p.name) '_' '-'))] ∧
    parser.defaults.lookup p.name = some (.bool true) := by
  have ha := bool_ann_cases hb hcoll
  -- split the parameter list around p
  obtain ⟨l₁, l₂, hsplit⟩ := List.append_of_mem hmem
  subst hsplit
  -- side conditions on the other parameters
  have hnodup' := hnodup
  rw [List.map_append, List.map_cons] at hnodup'
  have hdisj := List.disjoint_of_nodup_append hnodup'
  have hnodup2 := (List.nodup_append.mp hnodup').2.1
  have hother : ∀ q, q ∈ l₁ ∨ q ∈ l₂ → q.name ≠ p.name ∧ q.name ≠ "no_" ++ p.name := by
    intro q hq
    constructor
    · rcases hq with hq | hq
      · intro hname
        exact hdisj (List.mem_map_of_mem Param.name hq)
          (by rw [hname]; exact List.mem_cons_self _ _)
      · intro hname
        have := List.nodup_cons.mp hnodup2
        exact this.1 (by rw [← hname]; exact List.mem_map_of_mem Param.name hq)
    · intro hname
      apply hno
      rw [← hname, List.map_append, List.map_cons]
      rcases hq with hq | hq
      · exact List.mem_append_left _ (List.mem_map_of_mem Param.name hq)
      · exact List.mem_append_right _
          (List.mem_cons_of_mem _ (List.mem_map_of_mem Param.name hq))
  -- the names list handed to the generator
  have hnn : ("no_" ++ p.name) ∉ (l₁ ++ p :: l₂).map Param.name := hno
  -- characterize props
  unfold get_arg_properties at hprops
  have hmain := go_split_bool_true hauto ha hd hnn hnp hother hprops
  -- characterize the parser
  rw [getCmdParser_eq d u [] (by unfold get_arg_properties; exact hprops)] at hparser
  cases hparser
  constructor
  · rw [optsActions_filter_proj]
    have hcast := congrArg
      (List.map (fun t : ActionKind × Bool × String =>
        (t.1, t.2.1, some ("--" ++ pyReplaceChar t.2.2 '_' '-')))) hmain.1
    rw [List.map_map] at hcast
    exact hcast
  · exact hmain.2 []



theorem C1_bool_true_dual_flags_witness :
    (getCmdParser {} "d" "u" []
        [⟨"cache", .bool, .val (.bool true)⟩,
         ⟨"verbose", .bool, .val (.bool false)⟩]).map
      (fun pr =>
        ((pr.1.actions.filter (fun a => a.kwargs.dest == "cache")).map
            (fun a => (a.kwargs.action, a.kwargs.required, a.options.head?)),
         pr.1.defaults.lookup "cache"))
      = .ok ([(ActionKind.storeTrue, false, some "--cache"),
              (ActionKind.storeFalse, false, some "--no-cache")],
             some (.bool true)) := by
  have hex : ∃ pr, getCmdParser {} "d" "u" []
      [⟨"cache", .bool, .val (.bool true)⟩,
       ⟨"verbose", .bool, .val (.bool false)⟩] = .ok pr := ⟨_, rfl⟩
  obtain ⟨pr, hp⟩ := hex
  have h := C1_bool_true_dual_flags {} "d" "u"
    [⟨"cache", .bool, .val (.bool true)⟩, ⟨"verbose", .bool, .val (.bool false)⟩]
    _ pr.1 pr.2 ⟨"cache", .bool, .val (.bool true)⟩
    rfl (by decide) (by decide) rfl rfl rfl (by decide) (by decide) rfl
    (by rw [hp])
  rw [hp]
  exact congrArg Except.ok (Prod.ext (h.1.trans (by decide)) (h.2.trans (by decide)))

/-! ### C3: dispatcher error paths and exit codes -/

/-- C3 (amended): a command token with no registry entry (or carrying the
internal `_` marker) makes the dispatcher print the unrecognized-command
message (suggestions included) and the node's help — both on standard
output, not the error stream — and exit with status 1; a flag-parse failure
makes it print the command's help on standard output and the error text on
the error stream, and exit with status 2. -/
theorem C3_dispatch_error_exits (commands : List (String × String × Attr))
    (helpText parsedCommand : String)
    (hmiss : commands.lookup parsedCommand = Option.none
      ∨ pyStartsWith parsedCommand "_" = true) :
    get_cmd_callable commands helpText parsedCommand
      = .error (get_cmd_callable.unrecognizedOutput commands helpText parsedCommand,
                1) ∧
    (∀ oc ∈ get_cmd_callable.unrecognizedOutput commands helpText parsedCommand,
        oc.1 = Chan.stdout) ∧
    (∀ (cp : CmdParser) (e : String),
        parse_cmd_args_leaf cp (.error e)
          = .error ([(Chan.stdout, renderHelp cp),
                     (Chan.stderr, "\nError: " ++ e)], 2)) := by
  refine ⟨?_, ?_, fun cp e => rfl⟩
  · unfold get_cmd_callable
    rcases hmiss with h | h
    · split
      · next entry heq => rw [h] at heq; cases heq
      · rfl
    · split
      · rw [if_pos h]
      · rfl
  · intro oc hoc
    unfold get_cmd_callable.unrecognizedOutput at hoc
    simp only [List.mem_cons, List.mem_singleton, List.not_mem_nil, or_false] at hoc
    rcases hoc with h | h <;> (rw [h])

/-- Witness for C3 at a concrete registry and token. -/
theorem C3_dispatch_error_exits_witness :
    get_cmd_callable [("deploy", ("deploy", Attr.subtree))] "usage: prog" "foo"
      = .error (get_cmd_callable.unrecognizedOutput
          [("deploy", ("deploy", Attr.subtree))] "usage: prog" "foo", 1) ∧
    parse_cmd_args_leaf
        { description := "desc", usage := "usage", actions := [], defaults := [] }
        (.error "argument --age: invalid int value")
      = .error ([(Chan.stdout,
                  renderHelp { description := "desc", usage := "usage",
                               actions := [], defaults := [] }),
                 (Chan.stderr, "\nError: " ++ "argument --age: invalid int value")],
                2) := by
  have h := C3_dispatch_error_exits [("deploy", ("deploy", Attr.subtree))]
    "usage: prog" "foo" (Or.inl rfl)
  exact ⟨h.1, h.2.2 _ _⟩

/-- Counterexample to C3 as stated: at a concrete unrecognized token, both
the unrecognized-command message and the help go to standard output — the
error stream gets nothing on this path. -/
theorem C3_dispatch_error_exits_counterexample :
    get_cmd_callable [("deploy", ("deploy", Attr.subtree))] "usage: prog" "foo"
      = .error ([(Chan.stdout, "Unrecognized command: foo"),
                 (Chan.stdout, "usage: prog")], 1) ∧
    Chan.stdout ≠ Chan.stderr := by
  exact ⟨rfl, by decide⟩

/-! ### C6: long/short option naming -/

/-- C7 (code bug): the `short_options` tracker is a per-node attribute that
is never reset — the class comment says it is initialized in
`__get_cmd_parser`, but no such initialization exists — so building the same
command schema twice on the same tree node does not yield option sets of
identical length: the first build declares `--value, -v` and leaves `-v`
claimed, and the second build (starting from that tracker state) declares
`--value` only.  The keyword sets, requiredness included, are identical
across the two builds. -/
theorem C7_same_node_rebuild_drops_short_options :
    (getCmdParser {} "d" "u" [] [⟨"value", .str, .empty⟩]).map
        (fun pr => (pr.1.actions.map (fun a => a.options), pr.2))
      = .ok ([["--value", "-v"]], ["-v"]) ∧
    (getCmdParser {} "d" "u" ["-v"] [⟨"value", .str, .empty⟩]).map
        (fun pr => pr.1.actions.map (fun a => a.options))
      = .ok [["--value"]] ∧
    (getCmdParser {} "d" "u" ["-v"] [⟨"value", .str, .empty⟩]).map
        (fun pr => pr.1.actions.map (fun a => a.kwargs))
      = (getCmdParser {} "d" "u" [] [⟨"value", .str, .empty⟩]).map
        (fun pr => pr.1.actions.map (fun a => a.kwargs)) := by
  exact ⟨rfl, rfl, rfl⟩

/-! ### C10: turning automatic disable flags off -/

/-- With `auto_disable_flags = False`, each parameter contributes exactly its
own flag. -/
theorem argPropsFor_auto_off {cfg : NodeCfg} {names : List String} {q : Param}
    (hauto : cfg.auto_disable_flags = false) :
    argPropsFor cfg names q
      = (cmdArgInit q (descFor cfg.arg_desc q.name)).map
          (fun c => [(c, q.default)]) := by
  unfold argPropsFor
  simp only []
  cases hc : cmdArgInit q (descFor cfg.arg_desc q.name) with
  | error e => simp [bind, Except.bind, Except.map]
  | ok c =>
      simp only [bind, Except.bind, Except.map]
      rw [if_neg (by simp [hauto])]
      rfl

/-- Any successful emission opens with the parameter's own flag paired with
its declared default; whatever follows is a synthetic entry paired with
`None`. -/
theorem argPropsFor_head {cfg : NodeCfg} {names : List String} {q : Param}
    {lT : List (CmdArg × Default)} {c : CmdArg}
    (hT : argPropsFor cfg names q = .ok lT)
    (hc : cmdArgInit q (descFor cfg.arg_desc q.name) = .ok c) :
    ∃ tail, lT = (c, q.default) :: tail
      ∧ ∀ cd ∈ tail, cd.2 = Default.val .none := by
  unfold argPropsFor at hT
  simp only [] at hT
  rw [hc] at hT
  simp only [bind, Except.bind, pure, Except.pure] at hT
  split at hT
  · split at hT
    · cases hT
      exact ⟨[], rfl, by intro cd h; cases h⟩
    · split at hT
      · cases hT
        exact ⟨[], rfl, by intro cd h; cases h⟩
      · cases hc2 : cmdArgInit { q with name := "no_" ++ q.name }
            (descFor cfg.arg_desc q.name) with
        | error e =>
            rw [hc2] at hT
            simp only [bind, Except.bind] at hT
            cases hT
        | ok c2 =>
            rw [hc2] at hT
            simp only [bind, Except.bind, pure, Except.pure] at hT
            cases hT
            refine ⟨[(c2, Default.val .none)], rfl, ?_⟩
            intro cd h
            rcases List.mem_singleton.mp h with rfl
            rfl
  · cases hT
    exact ⟨[], rfl, by intro cd h; cases h⟩

/-- Entries carrying the `None` default leave the defaults dictionary
untouched. -/
theorem defaultsOf_val_none {l : List (CmdArg × Default)}
    (h : ∀ cd ∈ l, cd.2 = Default.val .none) (d0 : List (String × PyVal)) :
    defaultsOf d0 l = d0 := by
  induction l generalizing d0 with
  | nil => rfl
  | cons cd rest ih =>
      have hcd := h cd (List.mem_cons_self _ _)
      simp only [defaultsOf, hcd]
      exact ih (fun cd' h' => h cd' (List.mem_cons_of_mem _ h')) d0

/-- With automatic disable flags off, every schema flag is a flag of the
auto-on schema (in order), and the defaults dictionaries coincide. -/
theorem go_auto_off_rel {cfgT : NodeCfg} {names : List String} :
    ∀ {ps : List Param} {propsT propsF : List (CmdArg × Default)},
    get_arg_properties.go cfgT names ps = .ok propsT →
    get_arg_properties.go { cfgT with auto_disable_flags := false } names ps
      = .ok propsF →
    propsF.Sublist propsT ∧
      (∀ d0, defaultsOf d0 propsF = defaultsOf d0 propsT) ∧
      propsF.length = ps.length := by
  intro ps
  induction ps with
  | nil =>
      intro propsT propsF hT hF
      cases hT
      cases hF
      exact ⟨List.Sublist.refl _, fun d0 => rfl, rfl⟩
  | cons q rest ih =>
      intro propsT propsF hT hF
      obtain ⟨lqT, lrT, hT1, hT2, hT3⟩ := go_cons_ok hT
      obtain ⟨lqF, lrF, hF1, hF2, hF3⟩ := go_cons_ok hF
      subst hT3
      subst hF3
      rw [argPropsFor_auto_off rfl] at hF1
      cases hc : cmdArgInit q (descFor cfgT.arg_desc q.name) with
      | error e =>
          rw [hc] at hF1
          cases hF1
      | ok c =>
          rw [hc] at hF1
          cases hF1
          obtain ⟨tail, htail, hnone⟩ := argPropsFor_head hT1 hc
          subst htail
          obtain ⟨hsub, hdef, hlen⟩ := ih hT2 hF2
          refine ⟨?_, ?_, by simpa using hlen⟩
          · exact List.Sublist.append
              (List.Sublist.cons₂ _ (List.nil_sublist tail)) hsub
          · intro d0
            rw [defaultsOf_append, defaultsOf_append]
            simp only [defaultsOf]
            rw [defaultsOf_val_none hnone]
            exact hdef _

/-- Auto-off analogue of the schema decomposition around a boolean-true
parameter: only the positive flag writes to its key. -/
theorem go_split_bool_auto_off {cfgT : NodeCfg} {names : List String} {p : Param}
    (ha : p.ann = .bool ∨ p.ann = .optional .bool)
    (hnp : pyStartsWith p.name "no_" = false)
    {l₁ l₂ : List Param} {props : List (CmdArg × Default)}
    (hother : ∀ q, q ∈ l₁ ∨ q ∈ l₂ → q.name ≠ p.name ∧ q.name ≠ "no_" ++ p.name)
    (hok : get_arg_properties.go { cfgT with auto_disable_flags := false } names
        (l₁ ++ p :: l₂) = .ok props) :
    (props.filter (fun cd => cd.1.get_argparse_kwargs.dest == p.name)).map
        (fun cd => (cd.1.get_argparse_kwargs.action,
                    cd.1.get_argparse_kwargs.required, cd.1.name))
      = [(ActionKind.storeTrue, false, p.name)] := by
  obtain ⟨la, lc, h1, h2, h3⟩ := go_append hok
  obtain ⟨lp, lb, hp, hb2, hc3⟩ := go_cons_ok h2
  subst h3
  subst hc3
  rw [argPropsFor_auto_off rfl] at hp
  rw [cmdArgInit_bool (descFor cfgT.arg_desc p.name) ha] at hp
  cases hp
  have hLa := go_props_ne hnp (fun q hq => hother q (Or.inl hq)) h1
  have hLb := go_props_ne hnp (fun q hq => hother q (Or.inr hq)) hb2
  have hk1 := bool_entry_kwargs (descFor cfgT.arg_desc p.name) ha hnp
  rw [List.filter_append]
  have hfa : la.filter (fun cd => cd.1.get_argparse_kwargs.dest == p.name) = [] := by
    rw [List.filter_eq_nil_iff]
    intro cd hcd
    simpa using (hLa cd hcd).1
  have hfb : lb.filter (fun cd => cd.1.get_argparse_kwargs.dest == p.name) = [] := by
    rw [List.filter_eq_nil_iff]
    intro cd hcd
    simpa using (hLb cd hcd).1
  rw [hfa]
  simp only [List.nil_append, List.filter, hk1]
  simp [hfb, hk1, setupBoolean_name]

/-- C10: synthetic `no_<name>` disable flags are generated only when
`auto_disable_flags` is true (its default).  With it set to false, the built
schema for a boolean parameter defaulting to `True` contains exactly one flag
on that destination key — the positive set-true flag — with one schema flag
per declared parameter (no `no_` counterpart anywhere); every flag of the
auto-off schema is a flag of the auto-on schema (in order, with identical
keyword sets), and both schemas install identical defaults. -/
theorem C10_auto_disable_off (cfg : NodeCfg) (d u : String)
    (params : List Param) (propsT propsF : List (CmdArg × Default))
    (parserT parserF : CmdParser) (sT sF : List String) (p : Param)
    (hauto : cfg.auto_disable_flags = true)
    (hmem : p ∈ params)
    (hnodup : (params.map Param.name).Nodup)
    (hb : TypeValidator.is_bool_type (TypeValidator.normalize_annotation p.ann)
        = true)
    (hcoll : is_collection_type p.ann = Option.none)
    (hd : p.default = .val (.bool true))
    (hnp : pyStartsWith p.name "no_" = false)
    (hno : ("no_" ++ p.name) ∉ params.map Param.name)
    (hpropsT : get_arg_properties cfg params = .ok propsT)
    (hpropsF : get_arg_properties { cfg with auto_disable_flags := false } params
        = .ok propsF)
    (hparserT : getCmdParser cfg d u [] params = .ok (parserT, sT))
    (hparserF : getCmdParser { cfg with auto_disable_flags := false } d u [] params
        = .ok (parserF, sF)) :
    (parserF.actions.filter (fun a => a.kwargs.dest == p.name)).map
        (fun a => (a.kwargs.action, a.kwargs.required, a.options.head?))
      = [(ActionKind.storeTrue, false,
            some ("--" ++ pyReplaceChar p.name '_' '-'))] ∧
    parserF.actions.length = params.length ∧
    propsF.Sublist propsT ∧
    parserF.defaults = parserT.defaults := by
  have ha := bool_ann_cases hb hcoll
  obtain ⟨l₁, l₂, hsplit⟩ := List.append_of_mem hmem
  subst hsplit
  have hnodup' := hnodup
  rw [List.map_append, List.map_cons] at hnodup'
  have hdisj := List.disjoint_of_nodup_append hnodup'
  have hnodup2 := (List.nodup_append.mp hnodup').2.1
  have hother : ∀ q, q ∈ l₁ ∨ q ∈ l₂ → q.name ≠ p.name ∧ q.name ≠ "no_" ++ p.name := by
    intro q hq
    constructor
    · rcases hq with hq | hq
      · intro hname
        exact hdisj (List.mem_map_of_mem Param.name hq)
          (by rw [hname]; exact List.mem_cons_self _ _)
      · intro hname
        have := List.nodup_cons.mp hnodup2
        exact this.1 (by rw [← hname]; exact List.mem_map_of_mem Param.name hq)
    · intro hname
      apply hno
      rw [← hname, List.map_append, List.map_cons]
      rcases hq with hq | hq
      · exact List.mem_append_left _ (List.mem_map_of_mem Param.name hq)
      · exact List.mem_append_right _
          (List.mem_cons_of_mem _ (List.mem_map_of_mem Param.name hq))
  unfold get_arg_properties at hpropsT hpropsF
  have hrel := go_auto_off_rel hpropsT hpropsF
  have hfilter := go_split_bool_auto_off ha hnp hother hpropsF
  have hdefT := (go_split_bool_true hauto ha hd hno hnp hother hpropsT).2
  rw [getCmdParser_eq d u [] (by unfold get_arg_properties; exact hpropsT)]
    at hparserT
  rw [getCmdParser_eq d u [] (by unfold get_arg_properties; exact hpropsF)]
    at hparserF
  cases hparserT
  cases hparserF
  refine ⟨?_, ?_, hrel.1, ?_⟩
  · rw [optsActions_filter_proj]
    have hcast := congrArg
      (List.map (fun t : ActionKind × Bool × String =>
        (t.1, t.2.1, some ("--" ++ pyReplaceChar t.2.2 '_' '-')))) hfilter
    rw [List.map_map] at hcast
    exact hcast
  · rw [optsActions_length]
    simpa using hrel.2.2
  · rw [hrel.2.1]

/-- Witness for C10: `cmd(cache: bool = True)` with `auto_disable_flags`
off — one flag only, no disable counterpart, defaults unchanged from the
auto-on build. -/
theorem C10_auto_disable_off_witness :
    ((getCmdParser { auto_disable_flags := false } "d" "u" []
        [⟨"cache", .bool, .val (.bool true)⟩]).map
      (fun pr =>
        ((pr.1.actions.filter (fun a => a.kwargs.dest == "cache")).map
            (fun a => (a.kwargs.action, a.kwargs.required, a.options.head?)),
         pr.1.actions.length))
      = .ok ([(ActionKind.storeTrue, false, some "--cache")], 1)) ∧
    ((getCmdParser { auto_disable_flags := false } "d" "u" []
        [⟨"cache", .bool, .val (.bool true)⟩]).map (fun pr => pr.1.defaults)
      = (getCmdParser {} "d" "u" []
        [⟨"cache", .bool, .val (.bool true)⟩]).map (fun pr => pr.1.defaults)) := by
  have hexT : ∃ pr, getCmdParser {} "d" "u" []
      [⟨"cache", .bool, .val (.bool true)⟩] = .ok pr := ⟨_, rfl⟩
  have hexF : ∃ pr, getCmdParser { auto_disable_flags := false } "d" "u" []
      [⟨"cache", .bool, .val (.bool true)⟩] = .ok pr := ⟨_, rfl⟩
  obtain ⟨prT, hpT⟩ := hexT
  obtain ⟨prF, hpF⟩ := hexF
  have h := C10_auto_disable_off {} "d" "u" [⟨"cache", .bool, .val (.bool true)⟩]
    _ _ prT.1 prF.1 prT.2 prF.2 ⟨"cache", .bool, .val (.bool true)⟩
    rfl (by decide) (by decide) rfl rfl rfl (by decide) (by decide) rfl rfl
    hpT hpF
  constructor
  · rw [hpF]
    simp only [Except.map]
    exact congrArg Except.ok
      (Prod.ext (h.1.trans (by decide)) (h.2.1.trans (by decide)))
  · rw [hpF, hpT]
    simp only [Except.map]
    exact congrArg Except.ok h.2.2.2

/-! ### C4: command-name collisions -/

/-- A member `__init_commands` adds to the registry: callable, not
underscore-marked, and — for plain methods — passing signature validation. -/
def commandLike (cfg : NodeCfg) (m : String × Attr) : Bool :=
  m.2.isCallableAttr && !pyStartsWith m.1 "_" &&
    (match m.2 with
     | .method ps => validate_command_signature cfg m.1 ps == ([] : List String)
     | _ => true)

/-- A registry-bound member whose normalized name is `k`. -/
def likeKey (cfg : NodeCfg) (k : String) (m : String × Attr) : Bool :=
  commandLike cfg m && normalize_command_name cfg m.1 == k

/-- The validation errors one member contributes. -/
def memberErrors (cfg : NodeCfg) (m : String × Attr) : List String :=
  if m.2.isCallableAttr && !pyStartsWith m.1 "_" then
    match m.2 with
    | .method ps => validate_command_signature cfg m.1 ps
    | _ => []
  else []

/-- A key that `lookup` misses is not among the dictionary keys. -/
theorem lookup_none_not_mem_fst {α : Type} {l : List (String × α)} {k : String}
    (h : (l.lookup k).isNone = true) : k ∉ l.map Prod.fst := by
  induction l with
  | nil => simp
  | cons kv rest ih =>
      cases hbeq : (k == kv.1) with
      | true =>
          rw [List.lookup, hbeq] at h
          cases h
      | false =>
          rw [List.lookup, hbeq] at h
          have hne : k ≠ kv.1 := by simpa using hbeq
          simp only [List.map_cons, List.mem_cons]
          intro hmem
          rcases hmem with hmem | hmem
          · exact hne hmem
          · exact ih h hmem

/-- Keys of an updated dictionary. -/
theorem dictSet_map_fst {α : Type} (l : List (String × α)) (k : String) (v : α) :
    (dictSet l k v).map Prod.fst
      = if (l.lookup k).isNone then l.map Prod.fst ++ [k]
        else l.map Prod.fst := by
  induction l with
  | nil => simp [dictSet, List.lookup]
  | cons kv rest ih =>
      by_cases h : kv.1 = k
      · have hbeq : (k == kv.1) = true := by simpa using h.symm
        simp [dictSet, h, List.lookup, hbeq]
      · have hbeq : (kv.1 == k) = false := by simpa using h
        have hbeq' : (k == kv.1) = false := by simpa using fun hh => h hh.symm
        simp only [dictSet, hbeq, Bool.false_eq_true, if_false, List.map_cons,
          List.lookup, hbeq', ih]
        split <;> rfl

/-- `dictSet` keeps the keys free of duplicates. -/
theorem dictSet_nodup_fst {α : Type} {l : List (String × α)} (k : String) (v : α)
    (h : (l.map Prod.fst).Nodup) : ((dictSet l k v).map Prod.fst).Nodup := by
  rw [dictSet_map_fst]
  cases hl : (l.lookup k).isNone with
  | false => simpa using h
  | true =>
      rw [if_pos (by trivial)]
      rw [List.nodup_append]
      refine ⟨h, List.nodup_singleton k, ?_⟩
      intro a ha hk
      rcases List.mem_singleton.mp hk with rfl
      exact lookup_none_not_mem_fst hl ha

/-- Appending an entry for another key does not change a lookup. -/
theorem lookup_append_ne {α : Type} (l : List (String × α)) {k k0 : String}
    (v : α) (h : k ≠ k0) : (l ++ [(k0, v)]).lookup k = l.lookup k := by
  induction l with
  | nil => simp [List.lookup, (by simpa using h : (k == k0) = false)]
  | cons kv rest ih =>
      cases hbeq : (k == kv.1) <;>
        simp [List.lookup, hbeq, ih]

/-- Appending an entry for a missing key makes the lookup find it. -/
theorem lookup_append_last {α : Type} {l : List (String × α)} {k : String}
    (v : α) (h : (l.lookup k).isNone = true) :
    (l ++ [(k, v)]).lookup k = some v := by
  induction l with
  | nil => simp [List.lookup]
  | cons kv rest ih =>
      cases hbeq : (k == kv.1) with
      | true => rw [List.lookup, hbeq] at h; cases h
      | false =>
          rw [List.lookup, hbeq] at h
          simpa [List.lookup, hbeq] using ih h

/-- A value-rewriting map over a dictionary, as `__record_command_collision`
performs on the collision table. -/
theorem lookup_map_update {α : Type} (l : List (String × α)) (k k0 : String)
    (f : α → α) :
    (l.map (fun kv => if kv.1 == k0 then (kv.1, f kv.2) else kv)).lookup k
      = if k = k0 then (l.lookup k).map f else l.lookup k := by
  induction l with
  | nil => by_cases hk : k = k0 <;> simp [List.lookup, hk]
  | cons kv rest ih =>
      by_cases hk : kv.1 = k0 <;> by_cases hkk : k = kv.1
      · subst hkk
        subst hk
        simp only [List.map_cons]
        rw [if_pos (show (kv.1 == kv.1) = true by simp)]
        simp [List.lookup]
      · subst hk
        simp only [List.map_cons]
        rw [if_pos (show (kv.1 == kv.1) = true by simp)]
        have hb2 : (k == kv.1) = false := by simpa using hkk
        simp [List.lookup, hb2, hkk]
        simpa [hkk] using ih
      · subst hkk
        simp only [List.map_cons]
        rw [if_neg (show ¬ (kv.1 == k0) = true by simpa using hk)]
        simp [List.lookup, hk]
      · simp only [List.map_cons]
        rw [if_neg (show ¬ (kv.1 == k0) = true by simpa using hk)]
        have hb2 : (k == kv.1) = false := by simpa using hkk
        simp [List.lookup, hb2]
        simpa using ih

/-- Loop invariant of `__init_commands` over the processed prefix `h`: the
registry holds, for each key, the last registry-bound member with that key;
the collision table holds, for keys hit at least twice, all their member
names in order; the error list is the concatenation of the members'
validation errors; registry keys are unique. -/
def InvP (cfg : NodeCfg) (h : List (String × Attr)) (st : InitState) : Prop :=
  (∀ k, st.commands.lookup k = (h.filter (likeKey cfg k)).getLast?) ∧
  (∀ k, st.collisions.lookup k =
      (if 2 ≤ (h.filter (likeKey cfg k)).length
       then some ((h.filter (likeKey cfg k)).map Prod.fst) else Option.none)) ∧
  st.errors = (h.map (memberErrors cfg)).flatten ∧
  (st.commands.map Prod.fst).Nodup

/-- `getLast?` misses exactly on the empty list. -/
theorem getLast?_eq_none_iff {α : Type} {l : List α} :
    l.getLast? = Option.none ↔ l = [] := by
  cases l with
  | nil => simp
  | cons a as => simp [List.getLast?_cons]

/-- A member that passes the gate contributes no validation errors. -/
theorem memberErrors_of_commandLike {cfg : NodeCfg} {m : String × Attr}
    (h : commandLike cfg m = true) : memberErrors cfg m = [] := by
  obtain ⟨attrName, attr⟩ := m
  simp only [commandLike, Bool.and_eq_true] at h
  obtain ⟨⟨h1, h2⟩, h3⟩ := h
  cases attr with
  | plain => cases h1
  | subtree => simp [memberErrors, h1, h2]
  | method ps =>
      simp only [beq_iff_eq] at h3
      simp [memberErrors, h1, h2, h3]

/-- `__record_command_collision` when the key is not yet tracked. -/
theorem recordCollision_none {st : InitState} {cmdKey : String} (attrName : String)
    (hc : st.collisions.lookup cmdKey = Option.none) :
    recordCollision st cmdKey attrName =
      st.collisions ++
        [(cmdKey, [((st.commands.lookup cmdKey).map Prod.fst).getD "", attrName])] := by
  unfold recordCollision
  rw [hc]

/-- `__record_command_collision` when the key is already tracked. -/
theorem recordCollision_some {st : InitState} {cmdKey : String} (attrName : String)
    {v : List String} (hc : st.collisions.lookup cmdKey = some v) :
    recordCollision st cmdKey attrName =
      st.collisions.map (fun kv =>
        if kv.1 == cmdKey then (kv.1, kv.2 ++ [attrName]) else kv) := by
  unfold recordCollision
  rw [hc]

/-- The registry-add branch of `__init_commands` preserves the invariant. -/
theorem add_branch_inv {cfg : NodeCfg} {h : List (String × Attr)} {st : InitState}
    (hinv : InvP cfg h st) (attrName : String) (attr : Attr)
    (hlike : commandLike cfg (attrName, attr) = true) :
    InvP cfg (h ++ [(attrName, attr)])
      { st with
        commands := dictSet st.commands (normalize_command_name cfg attrName)
          (attrName, attr),
        collisions :=
          if (st.commands.lookup (normalize_command_name cfg attrName)).isSome then
            recordCollision st (normalize_command_name cfg attrName) attrName
          else st.collisions } := by
  obtain ⟨hcmd, hcoll, herr, hnodup⟩ := hinv
  have hlkT : likeKey cfg (normalize_command_name cfg attrName) (attrName, attr)
      = true := by simp [likeKey, hlike]
  have hlkF : ∀ k, k ≠ normalize_command_name cfg attrName →
      likeKey cfg k (attrName, attr) = false := by
    intro k hk
    simp [likeKey, hlike]
    exact fun hh => absurd hh.symm hk
  refine ⟨?_, ?_, ?_, dictSet_nodup_fst _ _ hnodup⟩
  · intro k
    rw [List.filter_append]
    by_cases hk : k = normalize_command_name cfg attrName
    · subst hk
      rw [lookup_dictSet_self]
      simp [List.filter, hlkT, List.getLast?_concat]
    · rw [lookup_dictSet_ne _ _ hk]
      simp [List.filter, hlkF k hk, hcmd k]
  · intro k
    by_cases hk : k = normalize_command_name cfg attrName
    · subst hk
      rw [List.filter_append]
      simp only [List.filter, hlkT]
      cases hsome : (st.commands.lookup (normalize_command_name cfg attrName)).isSome
      · -- no existing entry: count was zero, stays below two
        simp only [Bool.false_eq_true, if_false]
        have hempty : (h.filter
            (likeKey cfg (normalize_command_name cfg attrName))) = [] := by
          rw [← getLast?_eq_none_iff, ← hcmd]
          cases hv : st.commands.lookup (normalize_command_name cfg attrName)
          · rfl
          · rw [hv] at hsome; cases hsome
        rw [hcoll, hempty]
        simp [hempty]
      · -- existing entry: record the collision
        simp only [hsome, ite_true]
        have hne : h.filter (likeKey cfg (normalize_command_name cfg attrName))
            ≠ [] := by
          intro hempty
          rw [hcmd, hempty] at hsome
          cases hsome
        by_cases hlen : 2 ≤ (h.filter
            (likeKey cfg (normalize_command_name cfg attrName))).length
        · have hc : st.collisions.lookup (normalize_command_name cfg attrName)
              = some ((h.filter
                (likeKey cfg (normalize_command_name cfg attrName))).map Prod.fst) := by
            rw [hcoll, if_pos hlen]
          rw [recordCollision_some attrName hc,
            lookup_map_update st.collisions _ _ (fun v => v ++ [attrName])]
          rw [if_pos rfl, hcoll, if_pos hlen]
          have h2 : 2 ≤ (h.filter (likeKey cfg (normalize_command_name cfg attrName))
              ++ [(attrName, attr)]).length := by
            simp
            omega
          rw [if_pos h2]
          simp
        · have hc : st.collisions.lookup (normalize_command_name cfg attrName)
              = Option.none := by
            rw [hcoll, if_neg hlen]
          have hlen1 : (h.filter
              (likeKey cfg (normalize_command_name cfg attrName))).length = 1 := by
            have := List.length_pos.mpr hne
            omega
          obtain ⟨x, hx⟩ := List.length_eq_one.mp hlen1
          have hfirst : ((st.commands.lookup
              (normalize_command_name cfg attrName)).map Prod.fst).getD "" = x.1 := by
            rw [hcmd, hx]
            rfl
          rw [recordCollision_none attrName hc, hfirst]
          rw [lookup_append_last _ (by rw [hc]; rfl)]
          rw [hx]
          simp
    · rw [List.filter_append]
      simp only [List.filter, hlkF k hk]
      cases hsome : (st.commands.lookup (normalize_command_name cfg attrName)).isSome
      · simp [hcoll k]
      · simp only [hsome, ite_true]
        cases hc : st.collisions.lookup (normalize_command_name cfg attrName) with
        | none =>
            rw [recordCollision_none attrName hc, lookup_append_ne _ _ hk]
            simp [hcoll k]
        | some v =>
            rw [recordCollision_some attrName hc,
              lookup_map_update st.collisions _ _ (fun v => v ++ [attrName]), if_neg hk]
            simp [hcoll k]
  · simp only [List.map_append, List.flatten_append]
    rw [← herr]
    simp [memberErrors_of_commandLike hlike]

/-- Extending the history with a member that never reaches the registry only
appends its validation errors. -/
theorem InvP_extend_noreg {cfg : NodeCfg} {h : List (String × Attr)}
    {st : InitState} (hinv : InvP cfg h st) (m : String × Attr)
    (hlike : ∀ k, likeKey cfg k m = false) :
    InvP cfg (h ++ [m]) { st with errors := st.errors ++ memberErrors cfg m } := by
  obtain ⟨hcmd, hcoll, herr, hnodup⟩ := hinv
  refine ⟨?_, ?_, ?_, hnodup⟩
  · intro k
    rw [List.filter_append]
    simp [List.filter, hlike k, hcmd k]
  · intro k
    rw [List.filter_append]
    simp [List.filter, hlike k, hcoll k]
  · simp [herr]

/-- One loop step of `__init_commands` preserves the invariant. -/
theorem initStep_inv {cfg : NodeCfg} {h : List (String × Attr)} {st : InitState}
    (hinv : InvP cfg h st) (m : String × Attr) :
    InvP cfg (h ++ [m]) (initStep cfg st m) := by
  obtain ⟨attrName, attr⟩ := m
  cases hcall : (attr.isCallableAttr && !pyStartsWith attrName "_") with
  | false =>
      have hstep : initStep cfg st (attrName, attr)
          = { st with errors := st.errors ++ memberErrors cfg (attrName, attr) } := by
        simp [initStep, memberErrors, hcall]
      rw [hstep]
      refine InvP_extend_noreg hinv _ ?_
      intro k
      simp [likeKey, commandLike, hcall]
  | true =>
      cases attr with
      | plain => simp [Attr.isCallableAttr] at hcall
      | subtree =>
          have hlike : commandLike cfg (attrName, Attr.subtree) = true := by
            simp [commandLike]
            simpa using hcall
          have hstep : initStep cfg st (attrName, Attr.subtree)
              = { st with
                  commands := dictSet st.commands
                    (normalize_command_name cfg attrName) (attrName, Attr.subtree),
                  collisions :=
                    if (st.commands.lookup
                        (normalize_command_name cfg attrName)).isSome then
                      recordCollision st (normalize_command_name cfg attrName)
                        attrName
                    else st.collisions } := by
            simp [initStep, hcall]
          rw [hstep]
          exact add_branch_inv hinv attrName Attr.subtree hlike
      | method ps =>
          cases hval : (validate_command_signature cfg attrName ps).isEmpty with
          | false =>
              have hstep : initStep cfg st (attrName, Attr.method ps)
                  = { st with errors := st.errors
                      ++ memberErrors cfg (attrName, Attr.method ps) } := by
                simp [initStep, memberErrors, hcall, hval]
              rw [hstep]
              refine InvP_extend_noreg hinv _ ?_
              intro k
              have hv : ¬ validate_command_signature cfg attrName ps = [] := by
                intro hh
                rw [hh] at hval
                cases hval
              simp [likeKey, commandLike, hv]
          | true =>
              have hv : validate_command_signature cfg attrName ps = [] :=
                List.isEmpty_iff.mp hval
              have hlike : commandLike cfg (attrName, Attr.method ps) = true := by
                simp [commandLike, hv]
                simpa using hcall
              have hstep : initStep cfg st (attrName, Attr.method ps)
                  = { st with
                      commands := dictSet st.commands
                        (normalize_command_name cfg attrName)
                        (attrName, Attr.method ps),
                      collisions :=
                        if (st.commands.lookup
                            (normalize_command_name cfg attrName)).isSome then
                          recordCollision st
                            (normalize_command_name cfg attrName) attrName
                        else st.collisions } := by
                simp [initStep, hcall, hval]
              rw [hstep]
              exact add_branch_inv hinv attrName (Attr.method ps) hlike

/-- The `__init_commands` fold satisfies the invariant over the whole member
list. -/
theorem foldl_initStep_inv (cfg : NodeCfg) (members : List (String × Attr)) :
    InvP cfg members (members.foldl (initStep cfg) ⟨[], [], []⟩) := by
  suffices hgen : ∀ (rest : List (String × Attr)) (h : List (String × Attr))
      (st : InitState), InvP cfg h st →
      InvP cfg (h ++ rest) (rest.foldl (initStep cfg) st) by
    have h0 : InvP cfg [] ⟨[], [], []⟩ := by
      refine ⟨?_, ?_, rfl, List.nodup_nil⟩
      · intro k; rfl
      · intro k; rfl
    simpa using hgen members [] ⟨[], [], []⟩ h0
  intro rest
  induction rest with
  | nil => intro h st hinv; simpa using hinv
  | cons m rest ih =>
      intro h st hinv
      have := ih (h ++ [m]) (initStep cfg st m) (initStep_inv hinv m)
      simpa using this

/-- C4: two members of one node whose normalized command names coincide leave
a single registry slot under that key — resolved to the last member that maps
to it — while the collision record under the key lists both members' names;
under strict validation `__init_commands` fails with the collision report
before the registry is returned, and otherwise (absent other validation
errors) it returns the registry with the report emitted as a warning on
standard error. -/
theorem C4_command_collisions (cfg : NodeCfg) (u v w : List (String × Attr))
    (m₁ m₂ : String × Attr)
    (h₁ : commandLike cfg m₁ = true) (h₂ : commandLike cfg m₂ = true)
    (hkey : normalize_command_name cfg m₁.1 = normalize_command_name cfg m₂.1) :
    let members := u ++ m₁ :: (v ++ m₂ :: w)
    let k := normalize_command_name cfg m₂.1
    let st := members.foldl (initStep cfg) ⟨[], [], []⟩
    (st.commands.lookup k = (members.filter (likeKey cfg k)).getLast?
      ∧ (st.commands.lookup k).isSome = true
      ∧ (st.commands.map Prod.fst).Nodup)
    ∧ (st.collisions.lookup k
        = some ((members.filter (likeKey cfg k)).map Prod.fst)
      ∧ m₁.1 ∈ (members.filter (likeKey cfg k)).map Prod.fst
      ∧ m₂.1 ∈ (members.filter (likeKey cfg k)).map Prod.fst)
    ∧ (cfg.strict_validation = true →
        init_commands cfg members = .error (collisionReport st.collisions))
    ∧ (cfg.strict_validation = false → st.errors = [] →
        init_commands cfg members
          = .ok (st.commands, [(Chan.stderr, collisionReport st.collisions)])) := by
  simp only []
  obtain ⟨hcmd, hcoll, herr, hnodup⟩ :=
    foldl_initStep_inv cfg (u ++ m₁ :: (v ++ m₂ :: w))
  have hlk1 : likeKey cfg (normalize_command_name cfg m₂.1) m₁ = true := by
    simp [likeKey, h₁, hkey]
  have hlk2 : likeKey cfg (normalize_command_name cfg m₂.1) m₂ = true := by
    simp [likeKey, h₂]
  have hsplit : (u ++ m₁ :: (v ++ m₂ :: w)).filter
      (likeKey cfg (normalize_command_name cfg m₂.1))
      = u.filter (likeKey cfg (normalize_command_name cfg m₂.1))
        ++ m₁ :: (v.filter (likeKey cfg (normalize_command_name cfg m₂.1))
        ++ m₂ :: w.filter (likeKey cfg (normalize_command_name cfg m₂.1))) := by
    simp [List.filter_append, List.filter_cons, hlk1, hlk2]
  have hlen2 : 2 ≤ ((u ++ m₁ :: (v ++ m₂ :: w)).filter
      (likeKey cfg (normalize_command_name cfg m₂.1))).length := by
    rw [hsplit]
    simp
    omega
  have hnil : (u ++ m₁ :: (v ++ m₂ :: w)).filter
      (likeKey cfg (normalize_command_name cfg m₂.1)) ≠ [] := by
    rw [hsplit]
    simp
  have hcne : ((u ++ m₁ :: (v ++ m₂ :: w)).foldl (initStep cfg)
      ⟨[], [], []⟩).collisions.isEmpty = false := by
    cases hc : ((u ++ m₁ :: (v ++ m₂ :: w)).foldl (initStep cfg)
        ⟨[], [], []⟩).collisions with
    | nil =>
        have hck := hcoll (normalize_command_name cfg m₂.1)
        rw [hc, if_pos hlen2] at hck
        simp [List.lookup] at hck
    | cons a as => rfl
  refine ⟨⟨hcmd _, ?_, hnodup⟩, ⟨?_, ?_, ?_⟩, ?_, ?_⟩
  · rw [hcmd]
    cases hg : ((u ++ m₁ :: (v ++ m₂ :: w)).filter
        (likeKey cfg (normalize_command_name cfg m₂.1))).getLast? with
    | none => exact absurd (getLast?_eq_none_iff.mp hg) hnil
    | some x => rfl
  · rw [hcoll, if_pos hlen2]
  · exact List.mem_map.mpr ⟨m₁,
      List.mem_filter.mpr ⟨by simp, hlk1⟩, rfl⟩
  · exact List.mem_map.mpr ⟨m₂,
      List.mem_filter.mpr ⟨by simp, hlk2⟩, rfl⟩
  · intro hstrict
    unfold init_commands
    simp only []
    rw [if_pos (by rw [hcne, hstrict]; rfl)]
  · intro hstrict herrs
    unfold init_commands
    simp only []
    rw [if_neg (by rw [hcne, hstrict]; simp)]
    rw [herrs]
    simp only [List.isEmpty_nil, Bool.not_true, Bool.false_and, hcne,
      Bool.false_eq_true, if_false, if_true, List.append_nil]

/-- C4 witness: on a node with methods `MyCmd` and `mycmd`, the default
case-insensitive normalization makes both map to the key `mycmd`; strict
construction fails with the collision report, and the collision record under
the shared key names both members. -/
theorem C4_command_collisions_witness :
    (commandLike ⟨true, false, true, true, Option.none⟩
        ("MyCmd", Attr.method []) = true
      ∧ commandLike ⟨true, false, true, true, Option.none⟩
          ("mycmd", Attr.method []) = true
      ∧ normalize_command_name ⟨true, false, true, true, Option.none⟩ "MyCmd"
          = normalize_command_name ⟨true, false, true, true, Option.none⟩ "mycmd")
    ∧ init_commands ⟨true, false, true, true, Option.none⟩
        [("MyCmd", Attr.method []), ("mycmd", Attr.method [])]
      = .error (collisionReport
          (([("MyCmd", Attr.method []), ("mycmd", Attr.method [])]).foldl
            (initStep ⟨true, false, true, true, Option.none⟩)
            ⟨[], [], []⟩).collisions)
    ∧ (([("MyCmd", Attr.method []), ("mycmd", Attr.method [])]).foldl
          (initStep ⟨true, false, true, true, Option.none⟩)
          ⟨[], [], []⟩).collisions.lookup
        (normalize_command_name ⟨true, false, true, true, Option.none⟩ "mycmd")
      = some ["MyCmd", "mycmd"] := by
  have h := C4_command_collisions ⟨true, false, true, true, Option.none⟩ [] [] []
    ("MyCmd", Attr.method []) ("mycmd", Attr.method [])
    (by decide) (by decide) (by decide)
  simp only [] at h
  refine ⟨⟨by decide, by decide, by decide⟩, ?_, ?_⟩
  · simpa using h.2.2.1 trivial
  · have h2 := h.2.1.1
    simp only [List.nil_append] at h2
    exact h2.trans (by decide)

end MLArgparser
